import Mathlib

/-!
# BrainBlitz Quiz Selection & Mastery Engine — verification

Shallow embedding of the quiz engine of the BrainBlitz repository:
the mastery state machine (`updateMastery`), question enrichment
(`enrichQuestions`), topic aggregation (`computeTopicsForSelection`),
the three selection strategies and their driver (`selectQuestions`),
the active-recall requeue (`requeueQuestionForActiveRecall`) and the
summary aggregator (`computeQuizSummary`).

Conventions of the embedding:
* JavaScript numbers used for weights and random draws are modelled as `ℚ`;
  integer counters are modelled as `Nat`.
* `Math.random()` draws are modelled by oracle functions `Nat → ℚ`; the
  guarantee `0 ≤ r < 1` of `Math.random` becomes an explicit hypothesis
  (`UnitRange`) where a theorem needs it.
* JavaScript `Map` built from an entry list (later entries overwrite earlier
  ones) is modelled by `mapGet`, which returns the last matching entry.
* `Array.prototype.sort` is modelled as insertion sort; the comparator of the
  source is kept verbatim.  (For comparators that are not transitive the JS
  result is implementation-defined; insertion sort is one determinization.)
-/

namespace BrainBlitz

-- ===========================================================================
-- constants.ts
-- ===========================================================================

/-- The four mastery levels, lowest to highest
(source strings: Cooked, Meh, Theres Hope, Locked in). -/
inductive MasteryLevel where
  | cooked
  | meh
  | theresHope
  | lockedIn
deriving DecidableEq, Repr

/-- MASTERY_WEIGHTS from constants.ts. -/
def MASTERY_WEIGHTS : MasteryLevel → ℚ
  | .cooked => 3
  | .meh => 2
  | .theresHope => 1
  | .lockedIn => 0

/-- Index of a level in the MASTERY_LEVELS order (used by the summary
computation via indexOf on the masteryOrder array). -/
def masteryIdx : MasteryLevel → Nat
  | .cooked => 0
  | .meh => 1
  | .theresHope => 2
  | .lockedIn => 3

-- ===========================================================================
-- Mastery state machine (mastery source file)
-- ===========================================================================

/-- Current mastery state of a concept. -/
structure MasteryState where
  level : MasteryLevel
  streakCorrect : Nat
  streakIncorrect : Nat
deriving DecidableEq, Repr

/-- Initial mastery state for a new concept. -/
def INITIAL_MASTERY_STATE : MasteryState :=
  { level := .cooked, streakCorrect := 0, streakIncorrect := 0 }

/-- updateMasteryOnCorrect: transition on a correct answer. -/
def updateMasteryOnCorrect (prev : MasteryState) : MasteryState :=
  let newStreakCorrect := prev.streakCorrect + 1
  let newStreakIncorrect := 0
  match prev.level with
  | .cooked =>
      if newStreakCorrect ≥ 3 then
        { level := .meh, streakCorrect := 0, streakIncorrect := newStreakIncorrect }
      else
        { prev with streakCorrect := newStreakCorrect, streakIncorrect := newStreakIncorrect }
  | .meh =>
      if newStreakCorrect ≥ 2 then
        { level := .theresHope, streakCorrect := 0, streakIncorrect := newStreakIncorrect }
      else
        { prev with streakCorrect := newStreakCorrect, streakIncorrect := newStreakIncorrect }
  | .theresHope =>
      if newStreakCorrect ≥ 2 then
        { level := .lockedIn, streakCorrect := 0, streakIncorrect := newStreakIncorrect }
      else
        { prev with streakCorrect := newStreakCorrect, streakIncorrect := newStreakIncorrect }
  | .lockedIn =>
      { prev with streakCorrect := newStreakCorrect, streakIncorrect := newStreakIncorrect }

/-- updateMasteryOnIncorrect: transition on an incorrect answer. -/
def updateMasteryOnIncorrect (prev : MasteryState) : MasteryState :=
  let newStreakIncorrect := prev.streakIncorrect + 1
  let newStreakCorrect := 0
  match prev.level with
  | .cooked =>
      { prev with streakCorrect := newStreakCorrect, streakIncorrect := newStreakIncorrect }
  | .meh =>
      if newStreakIncorrect ≥ 2 then
        { level := .cooked, streakCorrect := newStreakCorrect, streakIncorrect := 0 }
      else
        { prev with streakCorrect := newStreakCorrect, streakIncorrect := newStreakIncorrect }
  | .theresHope =>
      if newStreakIncorrect ≥ 2 then
        { level := .meh, streakCorrect := newStreakCorrect, streakIncorrect := 0 }
      else
        { prev with streakCorrect := newStreakCorrect, streakIncorrect := newStreakIncorrect }
  | .lockedIn =>
      if newStreakIncorrect ≥ 2 then
        { level := .theresHope, streakCorrect := newStreakCorrect, streakIncorrect := 0 }
      else
        { prev with streakCorrect := newStreakCorrect, streakIncorrect := newStreakIncorrect }

/-- updateMastery: dispatch on answer outcome. -/
def updateMastery (prev : MasteryState) (isCorrect : Bool) : MasteryState :=
  if isCorrect then updateMasteryOnCorrect prev else updateMasteryOnIncorrect prev

-- ===========================================================================
-- The ladder as worded by the spec (for the refinement claim about
-- updateMastery); compared against the source-derived function above.
-- ===========================================================================

/-- Promotion target of a level, `none` at the cap. -/
def promoteLevel : MasteryLevel → Option MasteryLevel
  | .cooked => some .meh
  | .meh => some .theresHope
  | .theresHope => some .lockedIn
  | .lockedIn => none

/-- Demotion target of a level, `none` at the floor. -/
def demoteLevel : MasteryLevel → Option MasteryLevel
  | .cooked => none
  | .meh => some .cooked
  | .theresHope => some .meh
  | .lockedIn => some .theresHope

/-- Consecutive-correct threshold of the promotion ladder. -/
def promoteThreshold : MasteryLevel → Nat
  | .cooked => 3
  | _ => 2

/-- The specification ladder, written from the spec wording: a correct answer
increments `streakCorrect` and zeroes `streakIncorrect`, promoting when the new
correct streak reaches the threshold (3 out of Cooked, otherwise 2), resetting
`streakCorrect` to 0 on promotion, capped at Locked in; an incorrect answer
increments `streakIncorrect` and zeroes `streakCorrect`, demoting one level
when the new incorrect streak reaches 2 (resetting `streakIncorrect`), never
below Cooked; below-threshold answers change only the streak counters. -/
def masteryLadderSpec (prev : MasteryState) (isCorrect : Bool) : MasteryState :=
  if isCorrect then
    let n := prev.streakCorrect + 1
    match promoteLevel prev.level with
    | some next =>
        if n ≥ promoteThreshold prev.level then
          { level := next, streakCorrect := 0, streakIncorrect := 0 }
        else
          { level := prev.level, streakCorrect := n, streakIncorrect := 0 }
    | none =>
        { level := prev.level, streakCorrect := n, streakIncorrect := 0 }
  else
    let m := prev.streakIncorrect + 1
    match demoteLevel prev.level with
    | some next =>
        if m ≥ 2 then
          { level := next, streakCorrect := 0, streakIncorrect := 0 }
        else
          { level := prev.level, streakCorrect := 0, streakIncorrect := m }
    | none =>
        { level := prev.level, streakCorrect := 0, streakIncorrect := m }

-- ===========================================================================
-- Quiz engine data model (quiz engine source file and quizTypes.ts)
-- ===========================================================================

/-- Raw question data from the database. -/
structure RawQuizQuestion where
  id : String
  question_text : String
  options : List String
  correct_option_index : Nat
  explanation : Option String
  concept_id : String
  topic_id : String
  subtopic_id : Option String
deriving DecidableEq, Repr

/-- Concept data with mastery info. -/
structure ConceptWithDetails where
  id : String
  name : String
  mastery_level : MasteryLevel
  streak_correct : Nat
  streak_incorrect : Nat
  topic_id : String
  subtopic_id : Option String
deriving DecidableEq, Repr

/-- Topic data. -/
structure TopicData where
  id : String
  name : String
deriving DecidableEq, Repr

/-- Subtopic data. -/
structure SubtopicData where
  id : String
  name : String
  topic_id : String
deriving DecidableEq, Repr

/-- Quiz question with metadata for runtime. -/
structure QuizQuestionWithMeta extends RawQuizQuestion where
  conceptName : String
  topicName : String
  subtopicName : Option String
  masteryLevel : MasteryLevel
  streakCorrect : Nat
  streakIncorrect : Nat
deriving DecidableEq, Repr

/-- Question in the quiz queue with appearance tracking. -/
structure QueuedQuestion extends QuizQuestionWithMeta where
  appearanceCount : Nat
  maxAppearances : Nat
deriving DecidableEq, Repr

/-- Quiz selection mode. -/
inductive QuizMode where
  | normal
  | targetWeakness
  | suggestedTopics
deriving DecidableEq, Repr

/-- Topic with computed mastery for selection. -/
structure TopicForSelection where
  id : String
  name : String
  questionCount : Nat
  conceptCount : Nat
  averageMasteryWeight : ℚ
  masteryDistribution : MasteryLevel → Nat

/-- Record of a single answer attempt. -/
structure AnswerRecord where
  questionId : String
  conceptId : String
  selectedOptionIndex : Nat
  isCorrect : Bool
  timestamp : Int
  appearanceNumber : Nat
deriving DecidableEq, Repr

/-- Result for a concept after the quiz. -/
structure ConceptResult where
  conceptId : String
  conceptName : String
  topicName : String
  masteryBefore : MasteryLevel
  masteryAfter : MasteryLevel
  improved : Bool
  decreased : Bool
  attempts : Nat
  correctAttempts : Nat
deriving DecidableEq, Repr

/-- Summary statistics for the quiz. -/
structure QuizSummary where
  totalQuestions : Nat
  totalAttempts : Nat
  correctFirstTry : Nat
  correctTotal : Nat
  scorePercent : Int
  conceptsImproved : List ConceptResult
  conceptsUnchanged : List ConceptResult
  conceptsDecreased : List ConceptResult
  conceptsStillWeak : List ConceptResult
deriving DecidableEq, Repr

/-- Value type of the currentMastery map passed to the summary computation. -/
structure CurrentMasteryEntry where
  level : MasteryLevel
  conceptName : String
  topicName : String
deriving DecidableEq, Repr

-- ===========================================================================
-- JS helpers used by the embedding
-- ===========================================================================

/-- JS `new Map(entries).get(k)`: the value of the LAST entry whose key is
`k` (later entries overwrite earlier ones), `undefined` when absent. -/
def mapGet (entries : List α) (key : α → String) (k : String) : Option α :=
  entries.foldl (fun acc c => if key c = k then some c else acc) none

/-- JS `x || d` for an optional string `x`: the empty string is falsy, so it
also falls back to the default. -/
def jsOrString (x : Option String) (d : String) : String :=
  match x with
  | some s => if s = "" then d else s
  | none => d

/-- JS `x || null` for an optional string `x`: the empty string is falsy. -/
def jsOrNull (x : Option String) : Option String :=
  match x with
  | some s => if s = "" then none else some s
  | none => none

/-- `Math.floor` of a nonnegative rational, as a natural number. -/
def jsFloorNat (q : ℚ) : Nat := q.floor.toNat

/-- `Math.abs`. -/
def jsAbs (q : ℚ) : ℚ := if q < 0 then -q else q

/-- A `Math.random()` oracle that stays in the `[0, 1)` range guaranteed by
`Math.random`. -/
def UnitRange (r : Nat → ℚ) : Prop := ∀ k, 0 ≤ r k ∧ r k < 1

-- ===========================================================================
-- Fisher-Yates shuffle (shuffleArray)
-- ===========================================================================

/-- The swap `[shuffled[i], shuffled[j]] = [shuffled[j], shuffled[i]]`.
Out-of-range indices leave the list unchanged (unreachable in the source:
`j = Math.floor(Math.random() * (i + 1)) ≤ i < length`). -/
def swapL (l : List α) (i j : Nat) : List α :=
  match l[i]?, l[j]? with
  | some a, some b => (l.set i b).set j a
  | _, _ => l

/-- The `for (let i = length - 1; i > 0; i--)` loop of shuffleArray; the
iteration with index `i` draws `r i` and swaps positions `i` and
`Math.floor(r i * (i + 1))`. -/
def fyAux (r : Nat → ℚ) : Nat → List α → List α
  | 0, l => l
  | k + 1, l => fyAux r k (swapL l (k + 1) (jsFloorNat (r (k + 1) * (k + 2))))

/-- shuffleArray: Fisher-Yates over a copy of the input array. -/
def shuffleArray (r : Nat → ℚ) (l : List α) : List α :=
  fyAux r (l.length - 1) l

-- ===========================================================================
-- Question enrichment (enrichQuestions)
-- ===========================================================================

/-- enrichQuestions.  `masteryLevel` uses `concept?.mastery_level || Cooked`;
mastery-level strings are never empty, so the fallback fires exactly when the
concept is missing.  `streak || 0` differs from the raw value only when that
value is already 0, so it is the plain value with a missing-concept default. -/
def enrichQuestions (questions : List RawQuizQuestion) (concepts : List ConceptWithDetails)
    (topics : List TopicData) (subtopics : List SubtopicData) : List QuizQuestionWithMeta :=
  questions.map fun q =>
    let concept := mapGet concepts (·.id) q.concept_id
    let topic := mapGet topics (·.id) q.topic_id
    -- `q.subtopic_id ? subtopicMap.get(q.subtopic_id) : null`; the empty
    -- string is falsy, hence skips the lookup
    let subtopic := match q.subtopic_id with
      | some sid => if sid = "" then none else mapGet subtopics (·.id) sid
      | none => none
    { toRawQuizQuestion := q
      conceptName := jsOrString (concept.map (·.name)) "Unknown Concept"
      topicName := jsOrString (topic.map (·.name)) "Unknown Topic"
      subtopicName := jsOrNull (subtopic.map (·.name))
      masteryLevel := (concept.map (·.mastery_level)).getD .cooked
      streakCorrect := (concept.map (·.streak_correct)).getD 0
      streakIncorrect := (concept.map (·.streak_incorrect)).getD 0 }

-- ===========================================================================
-- Topic analysis (computeTopicsForSelection)
-- ===========================================================================

/-- computeTopicsForSelection.  The mastery-distribution record incremented
per concept is modelled as the per-level count.  The average is 0 when the
topic has no concepts. -/
def computeTopicsForSelection (topics : List TopicData) (concepts : List ConceptWithDetails)
    (questions : List RawQuizQuestion) : List TopicForSelection :=
  topics.map fun topic =>
    let topicConcepts := concepts.filter (fun c => c.topic_id == topic.id)
    let topicQuestions := questions.filter (fun q => q.topic_id == topic.id)
    let totalWeight := (topicConcepts.map (fun c => MASTERY_WEIGHTS c.mastery_level)).sum
    { id := topic.id
      name := topic.name
      questionCount := topicQuestions.length
      conceptCount := topicConcepts.length
      averageMasteryWeight :=
        if 0 < topicConcepts.length then totalWeight / topicConcepts.length else 0
      masteryDistribution := fun lv =>
        (topicConcepts.filter (fun c => c.mastery_level == lv)).length }

-- ===========================================================================
-- Selection - normal mode
-- ===========================================================================

/-- selectQuestionsNormal: shuffle, then `slice(0, count)`. -/
def selectQuestionsNormal (r : Nat → ℚ) (questions : List QuizQuestionWithMeta)
    (count : Nat) : List QuizQuestionWithMeta :=
  (shuffleArray r questions).take count

-- ===========================================================================
-- Selection - target weakness mode
-- ===========================================================================

/-- The question list grouped under a concept id (`questionsByConcept.get`). -/
def questionsByConcept (questions : List QuizQuestionWithMeta) (cid : String) :
    List QuizQuestionWithMeta :=
  questions.filter (fun q => q.concept_id == cid)

/-- `Math.max(MASTERY_WEIGHTS[level], 0.1)`. -/
def effectiveWeight (c : ConceptWithDetails) : ℚ :=
  max (MASTERY_WEIGHTS c.mastery_level) (1/10)

/-- The roulette-wheel scan: subtract each weight in turn and stop at the
first concept where the remainder drops to `≤ 0`. -/
def pickWeightedScan (random : ℚ) : List ConceptWithDetails → Option ConceptWithDetails
  | [] => none
  | c :: rest =>
      let random2 := random - effectiveWeight c
      if random2 ≤ 0 then some c else pickWeightedScan random2 rest

/-- Mutable loop state of selectQuestionsTargetWeakness. -/
structure TWState where
  selected : List QuizQuestionWithMeta
  usedConceptIds : List String
  usedQuestionIds : List String
deriving Repr

-- One iteration of the weighted-selection `while` loop is twIter below:
-- compute the available (not yet used) concepts, draw one (twDraw), mark it
-- used and pick one of its unused questions (twPick).  `none` is the `break`
-- of the source when no concept is available.  The `none` branch of the
-- question pick is unreachable when the random draw is in `[0, 1)` (the
-- index is then below `availQ.length`).

/-- The weighted draw over the available concepts: compute the total of the
floored weights, scale the random draw, run the roulette-wheel scan and fall
back to the last candidate when the scan finds none. -/
def twDraw (rcv : ℚ) (c0 : ConceptWithDetails) (cs : List ConceptWithDetails) :
    ConceptWithDetails :=
  let totalWeight := ((c0 :: cs).map effectiveWeight).sum
  (pickWeightedScan (rcv * totalWeight) (c0 :: cs)).getD
    ((c0 :: cs).getLast (List.cons_ne_nil c0 cs))

/-- Mark the drawn concept used and, when it still has an unused question,
append one picked uniformly at random to the selection. -/
def twPick (questions : List QuizQuestionWithMeta) (rqv : ℚ) (s : TWState)
    (selC : ConceptWithDetails) : TWState :=
  let usedC := s.usedConceptIds ++ [selC.id]
  let availQ := (questionsByConcept questions selC.id).filter
    (fun q => !(s.usedQuestionIds.contains q.id))
  if 0 < availQ.length then
    match availQ[jsFloorNat (rqv * availQ.length)]? with
    | some pick =>
        { selected := s.selected ++ [pick]
          usedConceptIds := usedC
          usedQuestionIds := s.usedQuestionIds ++ [pick.id] }
    | none => { s with usedConceptIds := usedC }
  else { s with usedConceptIds := usedC }

def twIter (questions : List QuizQuestionWithMeta) (cwq : List ConceptWithDetails)
    (rcv rqv : ℚ) (s : TWState) : Option TWState :=
  match cwq.filter (fun c => !(s.usedConceptIds.contains c.id)) with
  | [] => none
  | c0 :: cs => some (twPick questions rqv s (twDraw rcv c0 cs))

/-- The `while (selectedQuestions.length < count && usedConceptIds.size <
conceptsWithQuestions.length)` loop.  Every iteration marks one previously
unused concept id used, so the loop runs at most `cwq.length` iterations: the
caller passes that as fuel.  Oracle draws of an iteration are indexed by its
fuel value. -/
def twLoop (questions : List QuizQuestionWithMeta) (cwq : List ConceptWithDetails)
    (count : Nat) (rc rq : Nat → ℚ) : Nat → TWState → TWState
  | 0, s => s
  | fuel + 1, s =>
      if s.selected.length < count ∧ s.usedConceptIds.length < cwq.length then
        match twIter questions cwq (rc (fuel + 1)) (rq (fuel + 1)) s with
        | none => s
        | some s2 => twLoop questions cwq count rc rq fuel s2
      else s

/-- selectQuestionsTargetWeakness: weighted concept-wise phase, then a fill
phase from the shuffled remaining questions (`for ... if length >= count
break; push` is `take (count - selected.length)`), then a final shuffle. -/
def selectQuestionsTargetWeakness (rc rq rFill rFinal : Nat → ℚ)
    (questions : List QuizQuestionWithMeta) (concepts : List ConceptWithDetails)
    (count : Nat) : List QuizQuestionWithMeta :=
  let cwq := concepts.filter (fun c => questions.any (fun q => q.concept_id == c.id))
  if cwq.length = 0 then []
  else
    let s := twLoop questions cwq count rc rq cwq.length ⟨[], [], []⟩
    let selected :=
      if s.selected.length < count then
        let remaining := questions.filter (fun q => !(s.usedQuestionIds.contains q.id))
        s.selected ++ (shuffleArray rFill remaining).take (count - s.selected.length)
      else s.selected
    shuffleArray rFinal selected

-- ===========================================================================
-- Selection - suggested topics mode
-- ===========================================================================

/-- The comparator passed to `sort`: ascending mastery weight, except inside
the `0.1` tie band where it is descending question count. -/
def topicCmp (a b : TopicForSelection) : ℚ :=
  let masteryDiff := a.averageMasteryWeight - b.averageMasteryWeight
  if jsAbs masteryDiff > 1/10 then masteryDiff
  else (b.questionCount : ℚ) - (a.questionCount : ℚ)

/-- `topicCmp a b ≤ 0`: a sorts no later than b. -/
def topicLe (a b : TopicForSelection) : Prop := topicCmp a b ≤ 0

instance : DecidableRel topicLe :=
  fun a b => inferInstanceAs (Decidable (topicCmp a b ≤ 0))

/-- The filter + sort step of selectQuestionsSuggestedTopics.
`Array.prototype.sort` is modelled as insertion sort (a determinization: for
a comparator that is not transitive the JS result is implementation-defined). -/
def sortTopicsForSelection (l : List TopicForSelection) : List TopicForSelection :=
  List.insertionSort topicLe (l.filter (fun t => decide (0 < t.questionCount)))

/-- The `for (const topic of sortedTopics)` pool-accumulation loop, checking
`if (questionPool.length >= count) break` before each topic. -/
def takeTopicsLoop (questions : List QuizQuestionWithMeta) (count : Nat) :
    List TopicForSelection → List QuizQuestionWithMeta → List QuizQuestionWithMeta
  | [], pool => pool
  | t :: rest, pool =>
      if count ≤ pool.length then pool
      else takeTopicsLoop questions count rest
        (pool ++ questions.filter (fun q => q.topic_id == t.id))

/-- selectQuestionsSuggestedTopics.  (The source also accumulates the chosen
topic ids in a local set that no output reads; it is omitted.) -/
def selectQuestionsSuggestedTopics (r : Nat → ℚ) (questions : List QuizQuestionWithMeta)
    (topicsForSelection : List TopicForSelection) (count : Nat) :
    List QuizQuestionWithMeta :=
  let sortedTopics := sortTopicsForSelection topicsForSelection
  if sortedTopics.length = 0 then (shuffleArray r questions).take count
  else (shuffleArray r (takeTopicsLoop questions count sortedTopics [])).take count

-- ===========================================================================
-- Main selection function (selectQuestions)
-- ===========================================================================

structure SelectQuestionsParams where
  questions : List RawQuizQuestion
  concepts : List ConceptWithDetails
  topics : List TopicData
  subtopics : List SubtopicData
  selectedTopicIds : List String
  mode : QuizMode
  numQuestions : Nat

structure SelectQuestionsResult where
  questions : List QueuedQuestion
  effectiveCount : Nat
  availableCount : Nat
  masterySnapshot : List (String × MasteryState)

/-- The `Math.random()` draws of one selectQuestions call, one oracle per
call site. -/
structure Oracle where
  rShuffle : Nat → ℚ
  rConcept : Nat → ℚ
  rQuestion : Nat → ℚ
  rFill : Nat → ℚ
  rFinal : Nat → ℚ

/-- All oracles of a call stay in the `[0, 1)` range of `Math.random`. -/
def OracleOk (o : Oracle) : Prop :=
  UnitRange o.rShuffle ∧ UnitRange o.rConcept ∧ UnitRange o.rQuestion ∧
    UnitRange o.rFill ∧ UnitRange o.rFinal

/-- selectQuestions: filter by selected topics, enrich, dispatch on the mode
(the unreachable `default` branch of the switch duplicates the normal mode),
snapshot mastery for the concepts in the quiz, and queue with
`appearanceCount 0, maxAppearances 3`. -/
def selectQuestions (o : Oracle) (params : SelectQuestionsParams) : SelectQuestionsResult :=
  let filteredQuestions :=
    if 0 < params.selectedTopicIds.length then
      params.questions.filter (fun q => params.selectedTopicIds.contains q.topic_id)
    else params.questions
  let filteredConcepts :=
    if 0 < params.selectedTopicIds.length then
      params.concepts.filter (fun c => params.selectedTopicIds.contains c.topic_id)
    else params.concepts
  let enriched := enrichQuestions filteredQuestions params.concepts params.topics params.subtopics
  let availableCount := enriched.length
  let selectedQuestions :=
    match params.mode with
    | .normal => selectQuestionsNormal o.rShuffle enriched params.numQuestions
    | .targetWeakness =>
        selectQuestionsTargetWeakness o.rConcept o.rQuestion o.rFill o.rFinal
          enriched filteredConcepts params.numQuestions
    | .suggestedTopics =>
        let topicsForSelection := computeTopicsForSelection
          (params.topics.filter (fun t =>
            decide (params.selectedTopicIds.length = 0) || params.selectedTopicIds.contains t.id))
          filteredConcepts filteredQuestions
        selectQuestionsSuggestedTopics o.rShuffle enriched topicsForSelection
          params.numQuestions
  let masterySnapshot := params.concepts.filterMap (fun c =>
    if selectedQuestions.any (fun q => q.concept_id == c.id) then
      some (c.id, MasteryState.mk c.mastery_level c.streak_correct c.streak_incorrect)
    else none)
  let queued := selectedQuestions.map (fun q =>
    { toQuizQuestionWithMeta := q, appearanceCount := 0, maxAppearances := 3 })
  { questions := queued
    effectiveCount := queued.length
    availableCount := availableCount
    masterySnapshot := masterySnapshot }

-- ===========================================================================
-- Active recall queue management (requeueQuestionForActiveRecall)
-- ===========================================================================

/-- requeueQuestionForActiveRecall: `null` when the indexed question does not
exist or has reached its appearance cap, otherwise the queue with a clone
(appearance count + 1) appended. -/
def requeueQuestionForActiveRecall (queue : List QueuedQuestion) (currentIndex : Nat) :
    Option (List QueuedQuestion) :=
  match queue[currentIndex]? with
  | none => none
  | some question =>
      if question.maxAppearances ≤ question.appearanceCount then none
      else some (queue ++ [{ question with appearanceCount := question.appearanceCount + 1 }])

-- ===========================================================================
-- Summary computation (computeQuizSummary)
-- ===========================================================================

/-- The firstAttempts map: first answer per question id, in first-touch
order (JS Map iteration preserves insertion order). -/
def firstAttemptsList (answers : List AnswerRecord) : List AnswerRecord :=
  answers.foldl (fun acc a =>
    if acc.any (fun b => b.questionId == a.questionId) then acc else acc ++ [a]) []

/-- The attemptCounts map of the source (built, but read by no output). -/
def attemptCounts (answers : List AnswerRecord) (qid : String) : Nat :=
  (answers.filter (fun a => a.questionId == qid)).length

/-- The conceptResults accumulation: one entry per concept id in first-touch
order; a fresh entry starts at zero and the current answer then bumps
`attempts`/`correctAttempts`, exactly as the source mutates the map value. -/
def conceptResultsList (answers : List AnswerRecord)
    (masterySnapshot : List (String × MasteryState))
    (currentMastery : List (String × CurrentMasteryEntry)) : List ConceptResult :=
  answers.foldl (fun acc a =>
    let acc2 :=
      if acc.any (fun r => r.conceptId == a.conceptId) then acc
      else
        let snapshot := (mapGet masterySnapshot (·.1) a.conceptId).map (·.2)
        let current := (mapGet currentMastery (·.1) a.conceptId).map (·.2)
        acc ++ [{ conceptId := a.conceptId
                  conceptName := jsOrString (current.map (·.conceptName)) "Unknown"
                  topicName := jsOrString (current.map (·.topicName)) "Unknown"
                  -- mastery levels are non-empty strings, so `|| Cooked` is a
                  -- plain missing-entry default
                  masteryBefore := (snapshot.map (·.level)).getD .cooked
                  masteryAfter := (current.map (·.level)).getD .cooked
                  improved := false
                  decreased := false
                  attempts := 0
                  correctAttempts := 0 }]
    acc2.map (fun r =>
      if r.conceptId == a.conceptId then
        { r with attempts := r.attempts + 1
                 correctAttempts := r.correctAttempts + (if a.isCorrect then 1 else 0) }
      else r)) []

-- ===========================================================================
-- Invariants and derived quantities used by the selection proofs
-- ===========================================================================

/-- The distinct ids of the concepts that own at least one question of the
pool: exactly the concepts the weighted loop can draw from. -/
def conceptIdsWithQuestions (questions : List QuizQuestionWithMeta)
    (concepts : List ConceptWithDetails) : List String :=
  ((concepts.filter (fun c => questions.any (fun q => q.concept_id == c.id))).map (·.id)).dedup

/-- Invariant of the weighted-selection loop state: the used-id lists mirror
the selected questions one for one, selected questions come from the pool,
and no concept id or question id is recorded twice. -/
def TWInv (questions : List QuizQuestionWithMeta) (cwq : List ConceptWithDetails)
    (s : TWState) : Prop :=
  s.usedQuestionIds = s.selected.map (·.id) ∧
  s.usedConceptIds = s.selected.map (·.concept_id) ∧
  (∀ q ∈ s.selected, q ∈ questions) ∧
  s.usedConceptIds.Nodup ∧
  (∀ x ∈ s.usedConceptIds, x ∈ cwq.map (·.id)) ∧
  s.usedQuestionIds.Nodup

/-- computeQuizSummary. -/
def computeQuizSummary (answers : List AnswerRecord)
    (masterySnapshot : List (String × MasteryState))
    (currentMastery : List (String × CurrentMasteryEntry)) : QuizSummary :=
  let firstAttempts := firstAttemptsList answers
  let totalQuestions := firstAttempts.length
  let totalAttempts := answers.length
  let correctFirstTry := (firstAttempts.filter (fun a => a.isCorrect)).length
  let correctTotal := (answers.filter (fun a => a.isCorrect)).length
  let scorePercent : Int :=
    if 0 < totalQuestions then round ((correctFirstTry : ℚ) / totalQuestions * 100) else 0
  -- the improvement pass over masteryOrder.indexOf
  let allResults := (conceptResultsList answers masterySnapshot currentMastery).map (fun r =>
    { r with improved := decide (masteryIdx r.masteryBefore < masteryIdx r.masteryAfter)
             decreased := decide (masteryIdx r.masteryAfter < masteryIdx r.masteryBefore) })
  { totalQuestions := totalQuestions
    totalAttempts := totalAttempts
    correctFirstTry := correctFirstTry
    correctTotal := correctTotal
    scorePercent := scorePercent
    conceptsImproved := allResults.filter (·.improved)
    conceptsUnchanged := allResults.filter (fun r => !r.improved && !r.decreased)
    conceptsDecreased := allResults.filter (·.decreased)
    conceptsStillWeak := allResults.filter
      (fun r => r.masteryAfter == .cooked || r.masteryAfter == .meh) }

-- ===========================================================================
-- Concrete inputs and oracles shared by witnesses and counterexamples
-- ===========================================================================

/-- A raw question whose concept, topic and subtopic references resolve. -/
def exRaw : RawQuizQuestion :=
  { id := "q1", question_text := "qt", options := ["a", "b"], correct_option_index := 0,
    explanation := none, concept_id := "c1", topic_id := "t1", subtopic_id := none }

/-- A raw question whose concept, topic and subtopic references are dangling. -/
def exRawMissing : RawQuizQuestion :=
  { id := "q9", question_text := "qt", options := ["a", "b"], correct_option_index := 0,
    explanation := none, concept_id := "c9", topic_id := "t9", subtopic_id := some "s9" }

/-- An enriched question used as a generic pool element. -/
def exMeta : QuizQuestionWithMeta :=
  { toRawQuizQuestion := exRaw, conceptName := "cn", topicName := "tn",
    subtopicName := none, masteryLevel := .cooked, streakCorrect := 0, streakIncorrect := 0 }

/-- A queued question one appearance below the cap of 3. -/
def exQueued : QueuedQuestion :=
  { toQuizQuestionWithMeta := exMeta, appearanceCount := 2, maxAppearances := 3 }

/-- A deterministic `Math.random` oracle. -/
def zeroOracle : Nat → ℚ := fun _ => 0

/-- An Oracle all of whose draws are 0. -/
def zeroOracles : Oracle :=
  { rShuffle := zeroOracle, rConcept := zeroOracle, rQuestion := zeroOracle,
    rFill := zeroOracle, rFinal := zeroOracle }

/-- The sentinel policy the claim asserts for subtopics: a question whose
subtopic reference does not resolve still gets a substituted (non-null)
display value. -/
def subtopicSentinelClaim : Prop :=
  ∀ (questions : List RawQuizQuestion) (concepts : List ConceptWithDetails)
    (topics : List TopicData) (subtopics : List SubtopicData) (i : Nat) (sid : String),
    (questions[i]?).map (·.subtopic_id) = some (some sid) →
    mapGet subtopics (·.id) sid = none →
    ((enrichQuestions questions concepts topics subtopics)[i]?).map
      (·.subtopicName) ≠ some none

-- ===========================================================================
-- The topic order asserted by the claim about TopicPriority sorting
-- ===========================================================================

/-- The order the claim asserts between two topics appearing in this order in
the sorted output: ascending by averageMasteryWeight, except that two topics
whose weights differ by at most 0.1 are ordered by descending questionCount. -/
def claimTopicOrder (a b : TopicForSelection) : Prop :=
  if jsAbs (a.averageMasteryWeight - b.averageMasteryWeight) ≤ 1/10
  then b.questionCount ≤ a.questionCount
  else a.averageMasteryWeight ≤ b.averageMasteryWeight

instance : DecidableRel claimTopicOrder := fun a b => by
  unfold claimTopicOrder
  infer_instance

/-- Topic summaries building a comparator cycle: the A-B and A-C weight pairs
are inside the 0.1 tie band, the B-C pair is outside it. -/
def tpexA : TopicForSelection :=
  { id := "A", name := "A", questionCount := 5, conceptCount := 1,
    averageMasteryWeight := 109/100, masteryDistribution := fun _ => 0 }

def tpexB : TopicForSelection :=
  { id := "B", name := "B", questionCount := 1, conceptCount := 1,
    averageMasteryWeight := 1, masteryDistribution := fun _ => 0 }

def tpexC : TopicForSelection :=
  { id := "C", name := "C", questionCount := 9, conceptCount := 1,
    averageMasteryWeight := 111/100, masteryDistribution := fun _ => 0 }

/-- Raw records for the weighted-selection examples: the first two share the
id "a" but belong to different concepts; the third has its own id "b". -/
def exDupRaw1 : RawQuizQuestion :=
  { id := "a", question_text := "qt", options := ["a", "b"], correct_option_index := 0,
    explanation := none, concept_id := "c1", topic_id := "t1", subtopic_id := none }

def exDupRaw2 : RawQuizQuestion :=
  { id := "a", question_text := "qt", options := ["a", "b"], correct_option_index := 0,
    explanation := none, concept_id := "c2", topic_id := "t1", subtopic_id := none }

def exDistinctRaw2 : RawQuizQuestion :=
  { id := "b", question_text := "qt", options := ["a", "b"], correct_option_index := 0,
    explanation := none, concept_id := "c2", topic_id := "t1", subtopic_id := none }

def exDupQ1 : QuizQuestionWithMeta :=
  { toRawQuizQuestion := exDupRaw1, conceptName := "cn", topicName := "tn",
    subtopicName := none, masteryLevel := .cooked, streakCorrect := 0,
    streakIncorrect := 0 }

def exDupQ2 : QuizQuestionWithMeta :=
  { toRawQuizQuestion := exDupRaw2, conceptName := "cn", topicName := "tn",
    subtopicName := none, masteryLevel := .cooked, streakCorrect := 0,
    streakIncorrect := 0 }

def exDistinctQ2 : QuizQuestionWithMeta :=
  { toRawQuizQuestion := exDistinctRaw2, conceptName := "cn", topicName := "tn",
    subtopicName := none, masteryLevel := .cooked, streakCorrect := 0,
    streakIncorrect := 0 }

/-- Concepts owning the example questions. -/
def exCon1 : ConceptWithDetails :=
  { id := "c1", name := "n1", mastery_level := .cooked, streak_correct := 0,
    streak_incorrect := 0, topic_id := "t1", subtopic_id := none }

def exCon2 : ConceptWithDetails :=
  { id := "c2", name := "n2", mastery_level := .cooked, streak_correct := 0,
    streak_incorrect := 0, topic_id := "t1", subtopic_id := none }

/-- A topic record matching the example questions. -/
def exTopic : TopicData := { id := "t1", name := "tn" }

/-- selectQuestions input of the length counterexample: one question whose
concept is absent from the concept list, targetWeakness mode, count 1. -/
def exParamsCE : SelectQuestionsParams :=
  { questions := [exRaw], concepts := [], topics := [exTopic], subtopics := [],
    selectedTopicIds := [], mode := .targetWeakness, numQuestions := 1 }

/-- selectQuestions input for the witness of the amended selection invariant:
two distinct questions of one topic, their concepts present, normal mode. -/
def exParamsOk : SelectQuestionsParams :=
  { questions := [exRaw, exDistinctRaw2], concepts := [exCon1, exCon2],
    topics := [exTopic], subtopics := [], selectedTopicIds := [],
    mode := .normal, numQuestions := 2 }

/-- Two topics inside the tie band (weights 1.0 and 1.05), the one with the
higher weight carrying the larger question count. -/
def tpTieLow : TopicForSelection :=
  { id := "lo", name := "lo", questionCount := 1, conceptCount := 1,
    averageMasteryWeight := 1, masteryDistribution := fun _ => 0 }

def tpTieHigh : TopicForSelection :=
  { id := "hi", name := "hi", questionCount := 5, conceptCount := 1,
    averageMasteryWeight := 21/20, masteryDistribution := fun _ => 0 }

end BrainBlitz

namespace BrainBlitz

-- Batteries marks the Rat arithmetic operations irreducible; restore normal
-- unfolding so that concrete rational computations can be settled by decide.
attribute [local semireducible] Rat.mul Rat.add Rat.sub Rat.inv Rat.ofScientific

-- ===========================================================================
-- Theorems: mastery state machine
-- ===========================================================================

/-- C1: for every MasteryState and every boolean outcome, `updateMastery`
returns exactly the state prescribed by the specification ladder
(`masteryLadderSpec`): correct answers increment `streakCorrect`, zero
`streakIncorrect` and promote Cooked → Meh at streak 3, Meh → Theres Hope and
Theres Hope → Locked in at streak 2 (resetting `streakCorrect`, capped at
Locked in); incorrect answers increment `streakIncorrect`, zero
`streakCorrect` and demote one level at streak 2 (resetting
`streakIncorrect`), never below Cooked; below-threshold answers change only
the streaks. -/
theorem updateMastery_eq_ladder_spec (prev : MasteryState) (isCorrect : Bool) :
    updateMastery prev isCorrect = masteryLadderSpec prev isCorrect := by
  cases isCorrect <;> cases prev with
  | mk level sc si =>
    cases level <;>
      simp [updateMastery, updateMasteryOnCorrect, updateMasteryOnIncorrect,
        masteryLadderSpec, promoteLevel, demoteLevel, promoteThreshold]

/-- C3: after any single `updateMastery` transition, the two streak counters
are never simultaneously nonzero: the counter opposite to the answer's
direction is zero. -/
theorem updateMastery_streak_exclusive (prev : MasteryState) (isCorrect : Bool) :
    (updateMastery prev isCorrect).streakCorrect = 0 ∨
      (updateMastery prev isCorrect).streakIncorrect = 0 := by
  cases isCorrect <;> cases prev with
  | mk level sc si =>
    cases level <;>
      simp [updateMastery, updateMasteryOnCorrect, updateMasteryOnIncorrect] <;>
      split <;> simp

/-- C10: a single `updateMastery` transition moves the level by at most one
position in the order Cooked < Meh < Theres Hope < Locked in, and whenever the
level changes, both streak counters of the returned state are zero. -/
theorem updateMastery_level_step (prev : MasteryState) (isCorrect : Bool) :
    ((masteryIdx (updateMastery prev isCorrect).level : Int) -
        (masteryIdx prev.level : Int)).natAbs ≤ 1 ∧
      ((updateMastery prev isCorrect).level ≠ prev.level →
        (updateMastery prev isCorrect).streakCorrect = 0 ∧
          (updateMastery prev isCorrect).streakIncorrect = 0) := by
  cases isCorrect <;> cases prev with
  | mk level sc si =>
    cases level <;>
      simp only [updateMastery, updateMasteryOnCorrect, updateMasteryOnIncorrect,
        Bool.false_eq_true, reduceIte] <;>
      refine ⟨?_, ?_⟩ <;>
      (try split) <;>
      simp_all [masteryIdx]

/-- Witness for C10: from Cooked with a correct streak of 2, one more correct
answer changes the level, and the resulting streaks are both zero. -/
theorem updateMastery_level_step_witness :
    (updateMastery ⟨.cooked, 2, 0⟩ true).streakCorrect = 0 ∧
      (updateMastery ⟨.cooked, 2, 0⟩ true).streakIncorrect = 0 :=
  (updateMastery_level_step ⟨.cooked, 2, 0⟩ true).2 (by decide)

theorem zeroOracle_unitRange : UnitRange zeroOracle :=
  fun _ => ⟨le_refl 0, by norm_num [zeroOracle]⟩

theorem zeroOracles_ok : OracleOk zeroOracles :=
  ⟨zeroOracle_unitRange, zeroOracle_unitRange, zeroOracle_unitRange,
    zeroOracle_unitRange, zeroOracle_unitRange⟩

-- ===========================================================================
-- Theorems: active recall requeue (C4)
-- ===========================================================================

/-- C4: `requeueQuestionForActiveRecall` returns `null` iff no question exists
at the index or that question's appearance count has reached its cap;
otherwise it returns the original queue unchanged with one clone of the
indexed question (appearance count + 1) appended; and on a question one below
the cap of 3 it succeeds once and then returns `null` when applied to the
resulting clone. -/
theorem requeueQuestionForActiveRecall_spec (queue : List QueuedQuestion) (i : Nat) :
    (requeueQuestionForActiveRecall queue i = none ↔
      queue[i]? = none ∨
        ∃ q, queue[i]? = some q ∧ q.maxAppearances ≤ q.appearanceCount) ∧
    (∀ q, queue[i]? = some q → q.appearanceCount < q.maxAppearances →
      requeueQuestionForActiveRecall queue i =
        some (queue ++ [{ q with appearanceCount := q.appearanceCount + 1 }])) ∧
    (∀ q, queue[i]? = some q → q.maxAppearances = 3 → q.appearanceCount = 2 →
      requeueQuestionForActiveRecall queue i =
        some (queue ++ [{ q with appearanceCount := 3 }]) ∧
      requeueQuestionForActiveRecall (queue ++ [{ q with appearanceCount := 3 }])
        queue.length = none) := by
  refine ⟨?_, ?_, ?_⟩
  · cases hq : queue[i]? with
    | none => simp [requeueQuestionForActiveRecall, hq]
    | some q =>
        by_cases hc : q.maxAppearances ≤ q.appearanceCount
        · simp only [requeueQuestionForActiveRecall, hq, if_pos hc]
          constructor
          · intro _; exact Or.inr ⟨q, rfl, hc⟩
          · intro _; trivial
        · simp only [requeueQuestionForActiveRecall, hq, if_neg hc]
          constructor
          · intro h; cases h
          · rintro (h | ⟨q2, hq2, hc2⟩)
            · cases h
            · cases hq2; exact absurd hc2 hc
  · intro q hq hc
    simp only [requeueQuestionForActiveRecall, hq]
    rw [if_neg (not_le.mpr hc)]
  · intro q hq h3 h2
    have hne : ¬ q.maxAppearances ≤ q.appearanceCount := by omega
    constructor
    · simp only [requeueQuestionForActiveRecall, hq]
      rw [if_neg hne, h2]
    · have hgot : (queue ++ [{ q with appearanceCount := 3 }])[queue.length]? =
          some { q with appearanceCount := 3 } := List.getElem?_concat_length queue _
      simp only [requeueQuestionForActiveRecall, hgot]
      rw [if_pos (by simp [h3])]

/-- Witness for C4: a concrete queue holding one question with
`appearanceCount = 2`, `maxAppearances = 3`; requeue succeeds and requeueing
the resulting clone fails. -/
theorem requeueQuestionForActiveRecall_spec_witness :
    requeueQuestionForActiveRecall [exQueued] 0 =
      some ([exQueued] ++ [{ exQueued with appearanceCount := 3 }]) ∧
    requeueQuestionForActiveRecall ([exQueued] ++ [{ exQueued with appearanceCount := 3 }])
      ([exQueued] : List QueuedQuestion).length = none :=
  (requeueQuestionForActiveRecall_spec [exQueued] 0).2.2 exQueued rfl rfl rfl

-- ===========================================================================
-- Theorems: question enrichment (C9)
-- ===========================================================================

/-- C9 counterexample: a question with a dangling subtopic reference is
enriched with a null `subtopicName`, not an "Unknown ..." sentinel. -/
theorem enrichQuestions_subtopic_counterexample :
    ((enrichQuestions [exRawMissing] [] [] [])[0]?).map (·.subtopicName) = some none ∧
    ¬ subtopicSentinelClaim := by
  constructor
  · rfl
  · intro h
    exact h [exRawMissing] [] [] [] 0 "s9" rfl rfl rfl

/-- C9 (amended): `enrichQuestions` returns one enriched question per input
question, in input order, never failing the batch; a question whose concept
id has no matching concept gets conceptName "Unknown Concept", masteryLevel
Cooked and zero streaks, a missing topic reference gets topicName
"Unknown Topic", and a missing subtopic reference yields a null
`subtopicName` (not an "Unknown ..." sentinel). -/
theorem enrichQuestions_fallback (questions : List RawQuizQuestion)
    (concepts : List ConceptWithDetails) (topics : List TopicData)
    (subtopics : List SubtopicData) :
    (enrichQuestions questions concepts topics subtopics).length = questions.length ∧
    ∀ (i : Nat) (q : RawQuizQuestion), questions[i]? = some q →
      ((enrichQuestions questions concepts topics subtopics)[i]?).map
          (·.toRawQuizQuestion) = some q ∧
      (mapGet concepts (·.id) q.concept_id = none →
        ((enrichQuestions questions concepts topics subtopics)[i]?).map
            (·.conceptName) = some "Unknown Concept" ∧
        ((enrichQuestions questions concepts topics subtopics)[i]?).map
            (·.masteryLevel) = some .cooked ∧
        ((enrichQuestions questions concepts topics subtopics)[i]?).map
            (·.streakCorrect) = some 0 ∧
        ((enrichQuestions questions concepts topics subtopics)[i]?).map
            (·.streakIncorrect) = some 0) ∧
      (mapGet topics (·.id) q.topic_id = none →
        ((enrichQuestions questions concepts topics subtopics)[i]?).map
            (·.topicName) = some "Unknown Topic") ∧
      (∀ sid, q.subtopic_id = some sid → mapGet subtopics (·.id) sid = none →
        ((enrichQuestions questions concepts topics subtopics)[i]?).map
            (·.subtopicName) = some none) := by
  constructor
  · simp [enrichQuestions]
  · intro i q hq
    simp only [enrichQuestions, List.getElem?_map, hq, Option.map_some']
    refine ⟨by simp, ?_, ?_, ?_⟩
    · intro hc
      simp [hc, jsOrString]
    · intro ht
      simp [ht, jsOrString]
    · intro sid hsid hs
      simp only [hsid]
      by_cases he : sid = ""
      · simp [he, jsOrNull]
      · simp [he, hs, jsOrNull]

/-- Witness for C9 (amended): enriching a question with dangling concept,
topic and subtopic references yields the Unknown Concept / Unknown Topic /
Cooked / zero-streak fallbacks and a null subtopic name. -/
theorem enrichQuestions_fallback_witness :
    ((enrichQuestions [exRawMissing] [] [] [])[0]?).map (·.conceptName) =
        some "Unknown Concept" ∧
    ((enrichQuestions [exRawMissing] [] [] [])[0]?).map (·.masteryLevel) =
        some .cooked ∧
    ((enrichQuestions [exRawMissing] [] [] [])[0]?).map (·.streakCorrect) = some 0 ∧
    ((enrichQuestions [exRawMissing] [] [] [])[0]?).map (·.streakIncorrect) = some 0 ∧
    ((enrichQuestions [exRawMissing] [] [] [])[0]?).map (·.topicName) =
        some "Unknown Topic" ∧
    ((enrichQuestions [exRawMissing] [] [] [])[0]?).map (·.subtopicName) = some none :=
  have h := (enrichQuestions_fallback [exRawMissing] [] [] []).2 0 exRawMissing rfl
  have hc := h.2.1 rfl
  ⟨hc.1, hc.2.1, hc.2.2.1, hc.2.2.2, h.2.2.1 rfl, h.2.2.2 "s9" rfl rfl⟩

-- ===========================================================================
-- Theorems: summary computation (C8)
-- ===========================================================================

/-- C8: `computeQuizSummary` sets `scorePercent` to
round(correctFirstTry / totalQuestions * 100) when totalQuestions > 0 and to
0 when totalQuestions = 0; and with an empty answer log every count is 0 and
all four concept buckets are empty. -/
theorem computeQuizSummary_scorePercent_spec (answers : List AnswerRecord)
    (masterySnapshot : List (String × MasteryState))
    (currentMastery : List (String × CurrentMasteryEntry)) :
    ((computeQuizSummary answers masterySnapshot currentMastery).scorePercent =
      if 0 < (computeQuizSummary answers masterySnapshot currentMastery).totalQuestions then
        round (((computeQuizSummary answers masterySnapshot currentMastery).correctFirstTry : ℚ) /
          ((computeQuizSummary answers masterySnapshot currentMastery).totalQuestions : ℚ) * 100)
      else 0) ∧
    (answers = [] →
      (computeQuizSummary answers masterySnapshot currentMastery).totalQuestions = 0 ∧
      (computeQuizSummary answers masterySnapshot currentMastery).totalAttempts = 0 ∧
      (computeQuizSummary answers masterySnapshot currentMastery).scorePercent = 0 ∧
      (computeQuizSummary answers masterySnapshot currentMastery).conceptsImproved = [] ∧
      (computeQuizSummary answers masterySnapshot currentMastery).conceptsUnchanged = [] ∧
      (computeQuizSummary answers masterySnapshot currentMastery).conceptsDecreased = [] ∧
      (computeQuizSummary answers masterySnapshot currentMastery).conceptsStillWeak = []) := by
  constructor
  · rfl
  · intro h
    subst h
    simp [computeQuizSummary, firstAttemptsList, conceptResultsList]

/-- Witness for C8: the empty answer log yields the all-zero, all-empty
summary. -/
theorem computeQuizSummary_scorePercent_spec_witness :
    (computeQuizSummary [] [] []).totalQuestions = 0 ∧
    (computeQuizSummary [] [] []).totalAttempts = 0 ∧
    (computeQuizSummary [] [] []).scorePercent = 0 ∧
    (computeQuizSummary [] [] []).conceptsImproved = [] ∧
    (computeQuizSummary [] [] []).conceptsUnchanged = [] ∧
    (computeQuizSummary [] [] []).conceptsDecreased = [] ∧
    (computeQuizSummary [] [] []).conceptsStillWeak = [] :=
  (computeQuizSummary_scorePercent_spec [] [] []).2 rfl

-- ===========================================================================
-- Permutation lemmas for the Fisher-Yates shuffle
-- ===========================================================================

theorem cons_set_perm {α : Type} (t : List α) (k : Nat) (a b : α)
    (h : t[k]? = some b) : (b :: t.set k a).Perm (a :: t) := by
  induction t generalizing k with
  | nil => simp at h
  | cons y t ih =>
      cases k with
      | zero =>
          simp only [List.getElem?_cons_zero, Option.some.injEq] at h
          subst h
          simpa using List.Perm.swap a y t
      | succ m =>
          simp only [List.getElem?_cons_succ] at h
          simp only [List.set_cons_succ]
          exact (List.Perm.swap y b _).trans
            (((ih m h).cons y).trans (List.Perm.swap a y t))

theorem set_set_perm {α : Type} (l : List α) (i j : Nat) (a b : α)
    (hi : l[i]? = some a) (hj : l[j]? = some b) : ((l.set i b).set j a).Perm l := by
  induction l generalizing i j with
  | nil => simp at hi
  | cons x t ih =>
      cases i with
      | zero =>
          simp only [List.getElem?_cons_zero, Option.some.injEq] at hi
          subst hi
          cases j with
          | zero =>
              simp only [List.getElem?_cons_zero, Option.some.injEq] at hj
              subst hj
              simp
          | succ k =>
              simp only [List.getElem?_cons_succ] at hj
              simpa using cons_set_perm t k x b hj
      | succ m =>
          simp only [List.getElem?_cons_succ] at hi
          cases j with
          | zero =>
              simp only [List.getElem?_cons_zero, Option.some.injEq] at hj
              subst hj
              simpa using cons_set_perm t m x a hi
          | succ k =>
              simp only [List.getElem?_cons_succ] at hj
              simpa using (ih m k hi hj).cons x

theorem swapL_perm {α : Type} (l : List α) (i j : Nat) : (swapL l i j).Perm l := by
  unfold swapL
  cases hi : l[i]? with
  | none => cases hj : l[j]? <;> simp
  | some a =>
      cases hj : l[j]? with
      | none => simp
      | some b => exact set_set_perm l i j a b hi hj

theorem fyAux_perm {α : Type} (r : Nat → ℚ) (k : Nat) (l : List α) :
    (fyAux r k l).Perm l := by
  induction k generalizing l with
  | zero => simp [fyAux]
  | succ k ih =>
      simp only [fyAux]
      exact (ih _).trans (swapL_perm _ _ _)

theorem shuffleArray_perm {α : Type} (r : Nat → ℚ) (l : List α) :
    (shuffleArray r l).Perm l :=
  fyAux_perm r _ l

-- ===========================================================================
-- Theorems: normal-mode selection (C5)
-- ===========================================================================

/-- C5: for every pool and count, Uniform (normal-mode) selection returns
min(count, pool.length) elements of the pool, and when count ≥ pool.length it
returns a permutation of the entire pool (same multiset, length unchanged).
The shuffle operates on a copy; the embedding is pure, so the input pool is
never mutated. -/
theorem selectQuestionsNormal_spec (r : Nat → ℚ) (pool : List QuizQuestionWithMeta)
    (count : Nat) :
    (selectQuestionsNormal r pool count).length = min count pool.length ∧
    (∀ q ∈ selectQuestionsNormal r pool count, q ∈ pool) ∧
    (pool.length ≤ count → (selectQuestionsNormal r pool count).Perm pool) := by
  have hperm := shuffleArray_perm r pool
  refine ⟨?_, ?_, ?_⟩
  · simp [selectQuestionsNormal, List.length_take, hperm.length_eq]
  · intro q hqmem
    exact hperm.mem_iff.mp (List.mem_of_mem_take hqmem)
  · intro hle
    rw [selectQuestionsNormal, List.take_of_length_le (by rw [hperm.length_eq]; exact hle)]
    exact hperm

/-- Witness for C5: with count = pool size, the selection is a permutation of
the whole pool. -/
theorem selectQuestionsNormal_spec_witness :
    (selectQuestionsNormal zeroOracle [exMeta] 1).Perm [exMeta] :=
  (selectQuestionsNormal_spec zeroOracle [exMeta] 1).2.2 (by decide)

-- ===========================================================================
-- Theorems: suggested-topics sorting (C7)
-- ===========================================================================

theorem jsAbs_eq_abs (q : ℚ) : jsAbs q = |q| := by
  unfold jsAbs
  rcases lt_or_le q 0 with h | h
  · rw [if_pos h, abs_of_neg h]
  · rw [if_neg (not_lt.mpr h), abs_of_nonneg h]

theorem topicLe_total (a b : TopicForSelection) : topicLe a b ∨ topicLe b a := by
  simp only [topicLe, topicCmp, jsAbs_eq_abs]
  have habs : |b.averageMasteryWeight - a.averageMasteryWeight| =
      |a.averageMasteryWeight - b.averageMasteryWeight| := abs_sub_comm _ _
  by_cases h : |a.averageMasteryWeight - b.averageMasteryWeight| > 1/10
  · rw [if_pos h, if_pos (by rw [habs]; exact h)]
    rcases le_total a.averageMasteryWeight b.averageMasteryWeight with hle | hle
    · left; linarith
    · right; linarith
  · rw [if_neg h, if_neg (by rw [habs]; exact h)]
    rcases le_total (a.questionCount : ℚ) (b.questionCount : ℚ) with hle | hle
    · right; linarith
    · left; linarith

theorem topicLe_claimTopicOrder {a b : TopicForSelection} (h : topicLe a b) :
    claimTopicOrder a b := by
  simp only [topicLe, topicCmp, jsAbs_eq_abs] at h
  unfold claimTopicOrder
  simp only [jsAbs_eq_abs]
  by_cases hband : |a.averageMasteryWeight - b.averageMasteryWeight| ≤ 1/10
  · rw [if_pos hband]
    rw [if_neg (not_lt.mpr hband)] at h
    exact_mod_cast sub_nonpos.mp h
  · rw [if_neg hband]
    rw [if_pos (not_le.mp hband)] at h
    linarith [sub_nonpos.mp h]

theorem orderedInsert_headOrig {α : Type} (r : α → α → Prop) [DecidableRel r]
    (a : α) (l : List α) :
    (List.orderedInsert r a l).head? = some a ∨
      (List.orderedInsert r a l).head? = l.head? := by
  cases l with
  | nil => left; rfl
  | cons b t =>
      by_cases h : r a b
      · left; simp [List.orderedInsert, if_pos h]
      · right; simp [List.orderedInsert, if_neg h]

theorem chain_orderedInsert {α : Type} (r : α → α → Prop) [DecidableRel r]
    (total : ∀ a b, r a b ∨ r b a) (a : α) (l : List α) (h : List.Chain' r l) :
    List.Chain' r (List.orderedInsert r a l) := by
  induction l with
  | nil => simp
  | cons b t ih =>
      by_cases hab : r a b
      · simpa [List.orderedInsert, if_pos hab] using List.chain'_cons.mpr ⟨hab, h⟩
      · have hba : r b a := (total a b).resolve_left hab
        have ht : List.Chain' r t := (List.chain'_cons'.mp h).2
        simp only [List.orderedInsert, if_neg hab]
        apply List.chain'_cons'.mpr
        refine ⟨?_, ih ht⟩
        intro y hy
        rcases orderedInsert_headOrig r a t with h1 | h1
        · rw [h1] at hy
          simp only [Option.mem_def, Option.some.injEq] at hy
          subst hy
          exact hba
        · rw [h1] at hy
          exact (List.chain'_cons'.mp h).1 y hy

theorem chain_insertionSort {α : Type} (r : α → α → Prop) [DecidableRel r]
    (total : ∀ a b, r a b ∨ r b a) (l : List α) :
    List.Chain' r (List.insertionSort r l) := by
  induction l with
  | nil => simp
  | cons a t ih =>
      simp only [List.insertionSort]
      exact chain_orderedInsert r total a _ ih

/-- C7 counterexample: on the three topics tpexA, tpexB, tpexC (all with
positive question counts) the tie-band comparator is cyclic; the sorted
output violates the claimed pairwise order, and no ordering of the three
topics satisfies it. -/
theorem sortTopics_claim_counterexample :
    ¬ (sortTopicsForSelection [tpexA, tpexB, tpexC]).Pairwise claimTopicOrder ∧
    ([[tpexA, tpexB, tpexC], [tpexA, tpexC, tpexB], [tpexB, tpexA, tpexC],
      [tpexB, tpexC, tpexA], [tpexC, tpexA, tpexB], [tpexC, tpexB, tpexA]].all
      (fun l => !(decide (l.Pairwise claimTopicOrder)))) = true := by
  constructor
  · decide
  · decide

/-- C7 (amended): TopicPriority sorting considers exactly the topics with
questionCount > 0 (the sorted list is a permutation of that filter), and
every adjacent pair of the sorted output is ordered by the claimed rule:
ascending weight, except descending question count when the weights differ
by at most 0.1.  Because the comparator is not transitive the rule cannot
hold for every (non-adjacent) pair of the output.  In particular two topics
with weights 1.0 and 1.05 are ordered by descending question count. -/
theorem sortTopicsForSelection_spec :
    (∀ l : List TopicForSelection,
      (sortTopicsForSelection l).Perm
        (l.filter (fun t => decide (0 < t.questionCount))) ∧
      List.Chain' claimTopicOrder (sortTopicsForSelection l)) ∧
    (sortTopicsForSelection [tpTieLow, tpTieHigh]).map (·.id) = ["hi", "lo"] := by
  constructor
  · intro l
    constructor
    · exact List.perm_insertionSort topicLe _
    · exact (chain_insertionSort topicLe topicLe_total _).imp
        (fun a b hab => topicLe_claimTopicOrder hab)
  · decide

-- ===========================================================================
-- Generic list lemmas for the selection proofs
-- ===========================================================================

theorem length_filter_not_add {α : Type} (p : α → Bool) (l : List α) :
    (l.filter (fun x => !(p x))).length + (l.filter p).length = l.length := by
  induction l with
  | nil => rfl
  | cons a t ih => cases h : p a <;> simp [List.filter_cons, h] <;> omega

theorem nodup_length_le {α : Type} {l₁ l₂ : List α} (h1 : l₁.Nodup)
    (hsub : l₁ ⊆ l₂) : l₁.length ≤ l₂.length :=
  (List.subperm_of_subset h1 hsub).length_le

/-- A unit-range random draw scaled by the list length floors to a valid
index. -/
theorem jsFloorNat_lt_of_unit {r : ℚ} {n : Nat} (h1 : r < 1)
    (hn : 0 < n) : jsFloorNat (r * n) < n := by
  unfold jsFloorNat
  have hfl : (r * (n : ℚ)).floor < (n : ℤ) := by
    by_contra hcon
    push_neg at hcon
    have hle : ((n : ℤ) : ℚ) ≤ r * n := Rat.le_floor.mp hcon
    have hnq : (0 : ℚ) < n := by exact_mod_cast hn
    push_cast at hle
    nlinarith
  omega

/-- Over a list with pairwise-distinct ids, the elements whose id lies in a
duplicate-free id set S fully contained in the list are exactly |S| many. -/
theorem filter_mem_ids_length :
    ∀ (l : List QuizQuestionWithMeta) (S : List String),
      (l.map (·.id)).Nodup → S.Nodup → (∀ x ∈ S, x ∈ l.map (·.id)) →
      (l.filter (fun q => S.contains q.id)).length = S.length := by
  intro l
  induction l with
  | nil =>
      intro S _ _ hsub
      have hS : S = [] := List.eq_nil_iff_forall_not_mem.mpr
        (fun x hx => by simpa using hsub x hx)
      simp [hS]
  | cons q t ih =>
      intro S hnd hS hsub
      simp only [List.map_cons, List.nodup_cons] at hnd
      by_cases hq : q.id ∈ S
      · rw [List.filter_cons_of_pos (by simpa using hq)]
        have herase : t.filter (fun x => S.contains x.id) =
            t.filter (fun x => (S.erase q.id).contains x.id) := by
          apply List.filter_congr
          intro x hx
          have hne : x.id ≠ q.id := by
            intro he
            exact hnd.1 (he ▸ (List.mem_map_of_mem (·.id) hx))
          by_cases hxS : x.id ∈ S
          · have h1 : S.contains x.id = true := by simpa using hxS
            have h2 : (S.erase q.id).contains x.id = true := by
              simpa using (hS.mem_erase_iff).mpr ⟨hne, hxS⟩
            rw [h1, h2]
          · have h1 : S.contains x.id = false := by simp [hxS]
            have hxE : x.id ∉ S.erase q.id := fun hmem =>
              hxS ((hS.mem_erase_iff).mp hmem).2
            have h2 : (S.erase q.id).contains x.id = false := by simp [hxE]
            rw [h1, h2]
        rw [herase]
        simp only [List.length_cons]
        rw [ih (S.erase q.id) hnd.2 (hS.erase _) ?_]
        · have hpos : 0 < S.length := List.length_pos.mpr (List.ne_nil_of_mem hq)
          rw [List.length_erase_of_mem hq]
          omega
        · intro x hx
          rcases (hS.mem_erase_iff).mp hx with ⟨hxne, hxS⟩
          have := hsub x hxS
          simp only [List.map_cons, List.mem_cons] at this
          exact this.resolve_left hxne
      · rw [List.filter_cons_of_neg (by simp [hq])]
        apply ih S hnd.2 hS
        intro x hx
        have := hsub x hx
        simp only [List.map_cons, List.mem_cons] at this
        rcases this with h | h
        · exact absurd (h ▸ hx) hq
        · exact h

/-- Removing the already-selected questions (tracked by their ids) from a
pool with pairwise-distinct ids leaves exactly the complement. -/
theorem filter_not_sel_length {l sel : List QuizQuestionWithMeta}
    (hnd : (l.map (·.id)).Nodup) (hsel : ∀ q ∈ sel, q ∈ l)
    (hselnd : (sel.map (·.id)).Nodup) :
    (l.filter (fun q => !((sel.map (·.id)).contains q.id))).length =
      l.length - sel.length := by
  have h1 := filter_mem_ids_length l (sel.map (·.id)) hnd hselnd ?_
  · have h2 := length_filter_not_add (fun q => (sel.map (·.id)).contains q.id) l
    have h3 : (sel.map (·.id)).length = sel.length := List.length_map _ _
    omega
  · intro x hx
    rcases List.mem_map.mp hx with ⟨q, hqsel, rfl⟩
    exact List.mem_map_of_mem (·.id) (hsel q hqsel)

theorem pickWeightedScan_mem :
    ∀ (random : ℚ) (l : List ConceptWithDetails) (c : ConceptWithDetails),
      pickWeightedScan random l = some c → c ∈ l := by
  intro random l
  induction l generalizing random with
  | nil => intro c h; cases h
  | cons c0 cs ih =>
      intro c h
      unfold pickWeightedScan at h
      by_cases hle : random - effectiveWeight c0 ≤ 0
      · rw [if_pos hle] at h
        cases h
        exact List.mem_cons_self c0 cs
      · rw [if_neg hle] at h
        exact List.mem_cons_of_mem c0 (ih _ c h)

-- ===========================================================================
-- Weighted-selection loop lemmas (towards C6 and the selection invariant)
-- ===========================================================================

theorem twDraw_mem (rcv : ℚ) (c0 : ConceptWithDetails)
    (cs : List ConceptWithDetails) : twDraw rcv c0 cs ∈ c0 :: cs := by
  have hdef : twDraw rcv c0 cs =
      (pickWeightedScan (rcv * ((c0 :: cs).map effectiveWeight).sum) (c0 :: cs)).getD
        ((c0 :: cs).getLast (List.cons_ne_nil c0 cs)) := rfl
  rw [hdef]
  cases h : pickWeightedScan (rcv * ((c0 :: cs).map effectiveWeight).sum) (c0 :: cs) with
  | none =>
      simp only [Option.getD_none]
      exact List.getLast_mem (List.cons_ne_nil c0 cs)
  | some c =>
      simp only [Option.getD_some]
      exact pickWeightedScan_mem _ _ c h

theorem twPick_spec (questions : List QuizQuestionWithMeta)
    (cwq : List ConceptWithDetails) (rqv : ℚ) (s : TWState)
    (selC : ConceptWithDetails)
    (hnodup : (questions.map (·.id)).Nodup)
    (hinv : TWInv questions cwq s)
    (hnew : selC.id ∉ s.usedConceptIds)
    (hcid : selC.id ∈ cwq.map (·.id))
    (hex : ∃ q ∈ questions, q.concept_id = selC.id)
    (hr1 : rqv < 1) :
    TWInv questions cwq (twPick questions rqv s selC) ∧
    (twPick questions rqv s selC).selected.length = s.selected.length + 1 ∧
    (twPick questions rqv s selC).usedConceptIds.length =
      s.usedConceptIds.length + 1 := by
  obtain ⟨hQ, hC, hsub, hndC, hCsub, hndQ⟩ := hinv
  obtain ⟨q0, hq0mem, hq0c⟩ := hex
  have hq0used : q0.id ∉ s.usedQuestionIds := by
    rw [hQ]
    intro hmem
    rcases List.mem_map.mp hmem with ⟨q1, hq1sel, hq1id⟩
    have hq1mem : q1 ∈ questions := hsub q1 hq1sel
    have heq : q1 = q0 := List.inj_on_of_nodup_map hnodup hq1mem hq0mem hq1id
    apply hnew
    rw [hC]
    rw [← hq0c]
    exact List.mem_map_of_mem (·.concept_id) (heq ▸ hq1sel)
  have hq0in : q0 ∈ (questionsByConcept questions selC.id).filter
      (fun q => !(s.usedQuestionIds.contains q.id)) := by
    rw [List.mem_filter]
    refine ⟨?_, by simp [hq0used]⟩
    rw [questionsByConcept, List.mem_filter]
    exact ⟨hq0mem, by simp [hq0c]⟩
  unfold twPick
  set availQ := (questionsByConcept questions selC.id).filter
      (fun q => !(s.usedQuestionIds.contains q.id)) with havail
  have hpos : 0 < availQ.length := List.length_pos.mpr (List.ne_nil_of_mem hq0in)
  have hidx : jsFloorNat (rqv * availQ.length) < availQ.length :=
    jsFloorNat_lt_of_unit hr1 hpos
  rw [if_pos hpos, List.getElem?_eq_getElem hidx]
  have hpickmem : availQ[jsFloorNat (rqv * availQ.length)] ∈ availQ :=
    List.getElem_mem hidx
  set pick := availQ[jsFloorNat (rqv * availQ.length)] with hpickdef
  have hpickfacts := hpickmem
  rw [havail, List.mem_filter] at hpickfacts
  obtain ⟨hpickbc, hpickused⟩ := hpickfacts
  rw [questionsByConcept, List.mem_filter] at hpickbc
  obtain ⟨hpickq, hpickcidb⟩ := hpickbc
  have hpickcid : pick.concept_id = selC.id := by simpa using hpickcidb
  have hpickid : pick.id ∉ s.usedQuestionIds := by
    intro hmem
    simp [hmem] at hpickused
  refine ⟨⟨?_, ?_, ?_, ?_, ?_, ?_⟩, ?_, ?_⟩
  · simp only [List.map_append, hQ, List.map_cons, List.map_nil]
  · simp only [List.map_append, hC, List.map_cons, List.map_nil, hpickcid]
  · intro q hq
    rcases List.mem_append.mp hq with h | h
    · exact hsub q h
    · rw [List.mem_singleton] at h
      exact h ▸ hpickq
  · simp [List.nodup_append, hndC, hnew]
  · intro x hx
    rcases List.mem_append.mp hx with h | h
    · exact hCsub x h
    · rw [List.mem_singleton] at h
      exact h ▸ hcid
  · simp [List.nodup_append, hndQ, hpickid]
  · simp
  · simp

theorem twIter_spec (questions : List QuizQuestionWithMeta)
    (cwq : List ConceptWithDetails) (rcv rqv : ℚ) (s : TWState)
    (hnodup : (questions.map (·.id)).Nodup)
    (hcwq : ∀ c ∈ cwq, ∃ q ∈ questions, q.concept_id = c.id)
    (hr1 : rqv < 1) (hinv : TWInv questions cwq s) :
    (twIter questions cwq rcv rqv s = none →
      ∀ c ∈ cwq, c.id ∈ s.usedConceptIds) ∧
    (∀ s2, twIter questions cwq rcv rqv s = some s2 →
      TWInv questions cwq s2 ∧
      s2.selected.length = s.selected.length + 1 ∧
      s2.usedConceptIds.length = s.usedConceptIds.length + 1) := by
  constructor
  · intro hnone c hc
    unfold twIter at hnone
    cases hav : cwq.filter (fun c => !(s.usedConceptIds.contains c.id)) with
    | nil =>
        have := List.filter_eq_nil_iff.mp hav c hc
        simpa using this
    | cons c0 cs =>
        rw [hav] at hnone
        simp at hnone
  · intro s2 hsome
    unfold twIter at hsome
    cases hav : cwq.filter (fun c => !(s.usedConceptIds.contains c.id)) with
    | nil =>
        rw [hav] at hsome
        simp at hsome
    | cons c0 cs =>
        rw [hav] at hsome
        simp only [Option.some.injEq] at hsome
        subst hsome
        have hdrawmem : twDraw rcv c0 cs ∈ c0 :: cs := twDraw_mem rcv c0 cs
        have hdrawfilter : twDraw rcv c0 cs ∈
            cwq.filter (fun c => !(s.usedConceptIds.contains c.id)) := by
          rw [hav]; exact hdrawmem
        rw [List.mem_filter] at hdrawfilter
        obtain ⟨hdrawcwq, hdrawnew⟩ := hdrawfilter
        have hnew : (twDraw rcv c0 cs).id ∉ s.usedConceptIds := by
          intro hmem
          simp [hmem] at hdrawnew
        exact twPick_spec questions cwq rqv s (twDraw rcv c0 cs) hnodup
          ⟨hinv.1, hinv.2.1, hinv.2.2.1, hinv.2.2.2.1, hinv.2.2.2.2.1, hinv.2.2.2.2.2⟩
          hnew (List.mem_map_of_mem (·.id) hdrawcwq) (hcwq _ hdrawcwq) hr1

theorem twLoop_spec (questions : List QuizQuestionWithMeta)
    (cwq : List ConceptWithDetails) (count : Nat) (rc rq : Nat → ℚ)
    (hnodup : (questions.map (·.id)).Nodup) (hrq : UnitRange rq)
    (hcwq : ∀ c ∈ cwq, ∃ q ∈ questions, q.concept_id = c.id) :
    ∀ (fuel : Nat) (s : TWState), TWInv questions cwq s →
      s.selected.length ≤ count →
      ((cwq.map (·.id)).dedup).length ≤ s.usedConceptIds.length + fuel →
      TWInv questions cwq (twLoop questions cwq count rc rq fuel s) ∧
      (twLoop questions cwq count rc rq fuel s).selected.length =
        min count ((cwq.map (·.id)).dedup).length := by
  intro fuel
  induction fuel with
  | zero =>
      intro s hinv hle hfuel
      have hlen : s.usedConceptIds.length = s.selected.length := by
        rw [hinv.2.1]; exact List.length_map _ _
      have hub : s.usedConceptIds.length ≤ ((cwq.map (·.id)).dedup).length := by
        apply nodup_length_le hinv.2.2.2.1
        intro x hx
        exact List.mem_dedup.mpr (hinv.2.2.2.2.1 x hx)
      simp only [twLoop]
      exact ⟨hinv, by omega⟩
  | succ fuel ih =>
      intro s hinv hle hfuel
      have hlen : s.usedConceptIds.length = s.selected.length := by
        rw [hinv.2.1]; exact List.length_map _ _
      have hub : s.usedConceptIds.length ≤ ((cwq.map (·.id)).dedup).length := by
        apply nodup_length_le hinv.2.2.2.1
        intro x hx
        exact List.mem_dedup.mpr (hinv.2.2.2.2.1 x hx)
      by_cases hguard : s.selected.length < count ∧ s.usedConceptIds.length < cwq.length
      · cases hit : twIter questions cwq (rc (fuel + 1)) (rq (fuel + 1)) s with
        | none =>
            have hall := ((twIter_spec questions cwq _ _ s hnodup hcwq
                (hrq (fuel + 1)).2 hinv).1) hit
            have hsup : ((cwq.map (·.id)).dedup).length ≤ s.usedConceptIds.length := by
              apply nodup_length_le (List.nodup_dedup _)
              intro x hx
              rcases List.mem_map.mp (List.mem_dedup.mp hx) with ⟨c, hc, rfl⟩
              exact hall c hc
            simp only [twLoop, if_pos hguard, hit]
            exact ⟨hinv, by omega⟩
        | some s2 =>
            obtain ⟨hinv2, hsl, hcl⟩ := ((twIter_spec questions cwq _ _ s hnodup hcwq
                (hrq (fuel + 1)).2 hinv).2) s2 hit
            simp only [twLoop, if_pos hguard, hit]
            apply ih s2 hinv2
            · omega
            · omega
      · simp only [twLoop, if_neg hguard]
        refine ⟨hinv, ?_⟩
        rcases Nat.lt_or_ge s.selected.length count with hlt | hge
        · have hcw : cwq.length ≤ s.usedConceptIds.length := by
            rcases not_and_or.mp hguard with h | h
            · exact absurd hlt h
            · omega
          have hdedup_le : ((cwq.map (·.id)).dedup).length ≤ cwq.length := by
            calc ((cwq.map (·.id)).dedup).length ≤ (cwq.map (·.id)).length :=
                  (List.dedup_sublist _).length_le
              _ = cwq.length := List.length_map _ _
          omega
        · omega

/-- Full behaviour of selectQuestionsTargetWeakness needed by the claims:
results come from the pool, result ids are distinct, an empty
concepts-with-questions list gives an empty result, a non-empty one gives
exactly min(count, pool size) results, and when count distinct concepts own
questions the result has count questions over pairwise distinct concepts. -/
theorem targetWeakness_run (rc rq rFill rFinal : Nat → ℚ)
    (questions : List QuizQuestionWithMeta) (concepts : List ConceptWithDetails)
    (count : Nat)
    (hnodup : (questions.map (·.id)).Nodup) (hrq : UnitRange rq) :
    ∀ res, res = selectQuestionsTargetWeakness rc rq rFill rFinal questions concepts count →
      (∀ q ∈ res, q ∈ questions) ∧
      (res.map (·.id)).Nodup ∧
      (concepts.filter (fun c => questions.any (fun q => q.concept_id == c.id)) = [] →
        res = []) ∧
      (concepts.filter (fun c => questions.any (fun q => q.concept_id == c.id)) ≠ [] →
        res.length = min count questions.length) ∧
      (count ≤ (conceptIdsWithQuestions questions concepts).length →
        res.length = count ∧ (res.map (·.concept_id)).Nodup) := by
  intro res hres
  simp only [selectQuestionsTargetWeakness] at hres
  set cwq := concepts.filter (fun c => questions.any (fun q => q.concept_id == c.id))
    with hcwqdef
  have hciq : conceptIdsWithQuestions questions concepts = (cwq.map (·.id)).dedup := rfl
  have hcwqex : ∀ c ∈ cwq, ∃ q ∈ questions, q.concept_id = c.id := by
    intro c hc
    rw [hcwqdef, List.mem_filter] at hc
    rcases List.any_eq_true.mp hc.2 with ⟨q, hq, hqc⟩
    exact ⟨q, hq, by simpa using hqc⟩
  by_cases h0 : cwq.length = 0
  · rw [if_pos h0] at hres
    have hnil : cwq = [] := List.length_eq_zero.mp h0
    subst hres
    refine ⟨by simp, by simp, fun _ => rfl, fun hne => absurd hnil hne, fun hcnt => ?_⟩
    rw [hciq, hnil] at hcnt
    simp at hcnt
    simp [hcnt]
  · rw [if_neg h0] at hres
    have hinv0 : TWInv questions cwq ⟨[], [], []⟩ :=
      ⟨rfl, rfl, by simp, by simp, by simp, by simp⟩
    have hfuel0 : ((cwq.map (·.id)).dedup).length ≤
        (⟨[], [], []⟩ : TWState).usedConceptIds.length + cwq.length := by
      have h1 := (List.dedup_sublist (cwq.map (·.id))).length_le
      have h2 : (cwq.map (·.id)).length = cwq.length := List.length_map _ _
      simp only [List.length_nil]
      omega
    obtain ⟨hinvs, hlens⟩ := twLoop_spec questions cwq count rc rq hnodup hrq hcwqex
        cwq.length ⟨[], [], []⟩ hinv0 (by simp) hfuel0
    set s := twLoop questions cwq count rc rq cwq.length ⟨[], [], []⟩ with hsdef
    set dn := ((cwq.map (·.id)).dedup).length with hdndef
    obtain ⟨hQ, hC, hsub, hndC, hCsub, hndQ⟩ := hinvs
    have hselnd : (s.selected.map (·.id)).Nodup := hQ ▸ hndQ
    have hselsub : s.selected.map (·.id) ⊆ questions.map (·.id) := by
      intro x hx
      rcases List.mem_map.mp hx with ⟨q, hq, rfl⟩
      exact List.mem_map_of_mem (·.id) (hsub q hq)
    have hsellen : s.selected.length ≤ questions.length := by
      have := nodup_length_le hselnd hselsub
      simpa using this
    by_cases hfill : s.selected.length < count
    · rw [if_pos hfill] at hres
      rw [hQ] at hres
      set rem := questions.filter
        (fun q => !((s.selected.map (·.id)).contains q.id)) with hremdef
      have hremlen : rem.length = questions.length - s.selected.length :=
        filter_not_sel_length hnodup hsub hselnd
      have hremsub : ∀ q ∈ rem, q ∈ questions := by
        intro q hq
        exact (List.mem_filter.mp (hremdef ▸ hq)).1
      have hremnd : (rem.map (·.id)).Nodup := by
        apply List.Nodup.sublist _ hnodup
        exact (List.filter_sublist questions).map _
      set sel2 := s.selected ++
        (shuffleArray rFill rem).take (count - s.selected.length) with hsel2def
      have hshperm := shuffleArray_perm rFill rem
      have htakesub : ∀ q ∈ (shuffleArray rFill rem).take (count - s.selected.length),
          q ∈ rem := by
        intro q hq
        exact hshperm.mem_iff.mp (List.mem_of_mem_take hq)
      have hsel2len : sel2.length = min count questions.length := by
        rw [hsel2def, List.length_append, List.length_take, hshperm.length_eq]
        omega
      have hsel2sub : ∀ q ∈ sel2, q ∈ questions := by
        intro q hq
        rcases List.mem_append.mp (hsel2def ▸ hq) with h | h
        · exact hsub q h
        · exact hremsub q (htakesub q h)
      have hsel2nd : (sel2.map (·.id)).Nodup := by
        rw [hsel2def, List.map_append]
        rw [List.nodup_append]
        refine ⟨hselnd, ?_, ?_⟩
        · apply List.Nodup.sublist _ ((hshperm.map (·.id)).nodup_iff.mpr hremnd)
          exact (List.take_sublist _ _).map _
        · intro x hx hx2
          rcases List.mem_map.mp hx2 with ⟨q, hq, rfl⟩
          have hqrem := htakesub q hq
          rw [hremdef, List.mem_filter] at hqrem
          have hnotin : q.id ∉ s.selected.map (·.id) := by
            simpa using hqrem.2
          exact hnotin hx
      have hresperm : res.Perm sel2 := hres ▸ shuffleArray_perm rFinal sel2
      refine ⟨?_, ?_, ?_, ?_, ?_⟩
      · intro q hq
        exact hsel2sub q (hresperm.mem_iff.mp hq)
      · exact (hresperm.map (·.id)).nodup_iff.mpr hsel2nd
      · intro hnil
        exact absurd (by rw [hnil]; rfl) h0
      · intro _
        rw [hresperm.length_eq, hsel2len]
      · intro hcnt
        rw [hciq, ← hdndef] at hcnt
        omega
    · rw [if_neg hfill] at hres
      have hresperm : res.Perm s.selected := hres ▸ shuffleArray_perm rFinal s.selected
      have hslen : s.selected.length = count := by omega
      refine ⟨?_, ?_, ?_, ?_, ?_⟩
      · intro q hq
        exact hsub q (hresperm.mem_iff.mp hq)
      · exact (hresperm.map (·.id)).nodup_iff.mpr hselnd
      · intro hnil
        exact absurd (by rw [hnil]; rfl) h0
      · intro _
        rw [hresperm.length_eq, hslen]
        omega
      · intro _
        refine ⟨by rw [hresperm.length_eq, hslen], ?_⟩
        apply (hresperm.map (·.concept_id)).nodup_iff.mpr
        rw [← hC]
        exact hndC

-- ===========================================================================
-- Theorems: target-weakness selection (C6)
-- ===========================================================================

/-- C6 counterexample: with two pool questions sharing one id, two distinct
concepts own questions (the claim hypothesis holds with count = 2), yet the
weighted selection returns a single question rather than two with distinct
concepts. -/
theorem targetWeakness_dup_counterexample :
    2 ≤ (conceptIdsWithQuestions [exDupQ1, exDupQ2] [exCon1, exCon2]).length ∧
    (selectQuestionsTargetWeakness zeroOracle zeroOracle zeroOracle zeroOracle
      [exDupQ1, exDupQ2] [exCon1, exCon2] 2).length = 1 := by
  constructor
  · decide
  · decide

/-- C6 (amended): for a pool with pairwise-distinct question ids and every
sequence of in-range random draws, if at least count distinct concepts of the
concept list own a question of the pool, WeightedByWeakness selection returns
exactly count questions whose concept ids are pairwise distinct: no concept
contributes a second question before every concept has contributed one. -/
theorem selectQuestionsTargetWeakness_distinct_concepts
    (rc rq rFill rFinal : Nat → ℚ) (questions : List QuizQuestionWithMeta)
    (concepts : List ConceptWithDetails) (count : Nat)
    (hnodup : (questions.map (·.id)).Nodup) (hrq : UnitRange rq)
    (hcount : count ≤ (conceptIdsWithQuestions questions concepts).length) :
    (selectQuestionsTargetWeakness rc rq rFill rFinal questions concepts count).length =
      count ∧
    ((selectQuestionsTargetWeakness rc rq rFill rFinal questions concepts count).map
      (·.concept_id)).Nodup :=
  (targetWeakness_run rc rq rFill rFinal questions concepts count hnodup hrq _ rfl).2.2.2.2
    hcount

/-- Witness for C6 (amended): two distinct-id questions over two concepts,
count 2, all draws 0: both concepts contribute exactly one question. -/
theorem selectQuestionsTargetWeakness_distinct_concepts_witness :
    (selectQuestionsTargetWeakness zeroOracle zeroOracle zeroOracle zeroOracle
      [exDupQ1, exDistinctQ2] [exCon1, exCon2] 2).length = 2 ∧
    ((selectQuestionsTargetWeakness zeroOracle zeroOracle zeroOracle zeroOracle
      [exDupQ1, exDistinctQ2] [exCon1, exCon2] 2).map (·.concept_id)).Nodup :=
  selectQuestionsTargetWeakness_distinct_concepts zeroOracle zeroOracle zeroOracle
    zeroOracle [exDupQ1, exDistinctQ2] [exCon1, exCon2] 2 (by decide)
    zeroOracle_unitRange (by decide)

-- ===========================================================================
-- Enrichment preservation and topic-partition lemmas (towards C2)
-- ===========================================================================

theorem enrich_map_id (qs : List RawQuizQuestion) (cs : List ConceptWithDetails)
    (ts : List TopicData) (ss : List SubtopicData) :
    (enrichQuestions qs cs ts ss).map (·.id) = qs.map (·.id) := by
  rw [enrichQuestions, List.map_map]
  rfl

theorem enrich_map_topic (qs : List RawQuizQuestion) (cs : List ConceptWithDetails)
    (ts : List TopicData) (ss : List SubtopicData) :
    (enrichQuestions qs cs ts ss).map (·.topic_id) = qs.map (·.topic_id) := by
  rw [enrichQuestions, List.map_map]
  rfl

theorem enrich_length (qs : List RawQuizQuestion) (cs : List ConceptWithDetails)
    (ts : List TopicData) (ss : List SubtopicData) :
    (enrichQuestions qs cs ts ss).length = qs.length := by
  rw [enrichQuestions, List.length_map]

theorem enrich_filter_topic_length (qs : List RawQuizQuestion)
    (cs : List ConceptWithDetails) (ts : List TopicData) (ss : List SubtopicData)
    (tid : String) :
    ((enrichQuestions qs cs ts ss).filter (fun q => q.topic_id == tid)).length =
      (qs.filter (fun q => q.topic_id == tid)).length := by
  rw [enrichQuestions, ← List.countP_eq_length_filter, List.countP_map,
    ← List.countP_eq_length_filter]
  rfl

theorem computeTopics_map_id (ts : List TopicData) (cs : List ConceptWithDetails)
    (qs : List RawQuizQuestion) :
    (computeTopicsForSelection ts cs qs).map (·.id) = ts.map (·.id) := by
  rw [computeTopicsForSelection, List.map_map]
  rfl

/-- Filters over the topics after the head topic agree on the pool with the
head topic removed. -/
theorem topic_filters_shift (t : TopicForSelection) (rest : List TopicForSelection)
    (l : List QuizQuestionWithMeta) (hne : ∀ s ∈ rest, s.id ≠ t.id) :
    rest.map (fun s => (l.filter (fun q => q.topic_id == s.id)).length) =
      rest.map (fun s => ((l.filter (fun q => !(q.topic_id == t.id))).filter
        (fun q => q.topic_id == s.id)).length) := by
  apply List.map_eq_map_iff.mpr
  intro u hu
  rw [List.filter_filter]
  congr 1
  apply List.filter_congr
  intro q _
  by_cases hq : q.topic_id = u.id
  · have hqt : (q.topic_id == t.id) = false := by
      simp [hq, hne u hu]
    simp only [hq, hqt]
    simp [hne u hu]
  · simp [hq]

/-- Over topics with pairwise-distinct ids, the per-topic question filters
have total size at most the pool size. -/
theorem sum_topic_filters_le :
    ∀ (ts : List TopicForSelection) (l : List QuizQuestionWithMeta),
      (ts.map (·.id)).Nodup →
      (ts.map (fun t => (l.filter (fun q => q.topic_id == t.id)).length)).sum ≤
        l.length := by
  intro ts
  induction ts with
  | nil => intro l _; simp
  | cons t rest ih =>
      intro l hnd
      simp only [List.map_cons, List.nodup_cons] at hnd
      have hne : ∀ s ∈ rest, s.id ≠ t.id := by
        intro u hu he
        exact hnd.1 (he ▸ (List.mem_map_of_mem (·.id) hu))
      rw [List.map_cons, List.sum_cons, topic_filters_shift t rest l hne]
      have hsplit := length_filter_not_add (fun q => q.topic_id == t.id) l
      have := ih (l.filter (fun q => !(q.topic_id == t.id))) hnd.2
      omega

/-- Over topics with pairwise-distinct ids covering every question of the
pool, the per-topic question filters partition the pool. -/
theorem sum_topic_filters_eq :
    ∀ (ts : List TopicForSelection) (l : List QuizQuestionWithMeta),
      (ts.map (·.id)).Nodup → (∀ q ∈ l, q.topic_id ∈ ts.map (·.id)) →
      (ts.map (fun t => (l.filter (fun q => q.topic_id == t.id)).length)).sum =
        l.length := by
  intro ts
  induction ts with
  | nil =>
      intro l _ hcov
      have : l = [] := List.eq_nil_iff_forall_not_mem.mpr
        (fun q hq => by simpa using hcov q hq)
      simp [this]
  | cons t rest ih =>
      intro l hnd hcov
      simp only [List.map_cons, List.nodup_cons] at hnd
      have hne : ∀ s ∈ rest, s.id ≠ t.id := by
        intro u hu he
        exact hnd.1 (he ▸ (List.mem_map_of_mem (·.id) hu))
      rw [List.map_cons, List.sum_cons, topic_filters_shift t rest l hne]
      have hsplit := length_filter_not_add (fun q => q.topic_id == t.id) l
      have hcov2 : ∀ q ∈ l.filter (fun q => !(q.topic_id == t.id)),
          q.topic_id ∈ rest.map (·.id) := by
        intro q hq
        rw [List.mem_filter] at hq
        have h1 := hcov q hq.1
        simp only [List.map_cons, List.mem_cons] at h1
        rcases h1 with h | h
        · exfalso
          have := hq.2
          simp [h] at this
        · exact h
      have := ih (l.filter (fun q => !(q.topic_id == t.id))) hnd.2 hcov2
      omega

theorem takeTopicsLoop_length (questions : List QuizQuestionWithMeta) (count : Nat) :
    ∀ (ts : List TopicForSelection) (pool : List QuizQuestionWithMeta),
      min count (takeTopicsLoop questions count ts pool).length =
        min count (pool.length +
          (ts.map (fun t =>
            (questions.filter (fun q => q.topic_id == t.id)).length)).sum) ∧
      (takeTopicsLoop questions count ts pool).length ≤ pool.length +
        (ts.map (fun t =>
          (questions.filter (fun q => q.topic_id == t.id)).length)).sum := by
  intro ts
  induction ts with
  | nil => intro pool; simp [takeTopicsLoop]
  | cons t rest ih =>
      intro pool
      simp only [takeTopicsLoop]
      by_cases hc : count ≤ pool.length
      · rw [if_pos hc]
        constructor
        · omega
        · simp only [List.map_cons, List.sum_cons]
          omega
      · rw [if_neg hc]
        have hih := ih (pool ++ questions.filter (fun q => q.topic_id == t.id))
        rw [List.length_append] at hih
        simp only [List.map_cons, List.sum_cons]
        obtain ⟨h1, h2⟩ := hih
        omega

theorem takeTopicsLoop_nodup (questions : List QuizQuestionWithMeta) (count : Nat)
    (hnodup : (questions.map (·.id)).Nodup) :
    ∀ (ts : List TopicForSelection) (pool : List QuizQuestionWithMeta),
      (ts.map (·.id)).Nodup →
      (pool.map (·.id)).Nodup →
      (∀ q ∈ pool, q ∈ questions) →
      (∀ q ∈ pool, ∀ t ∈ ts, q.topic_id ≠ t.id) →
      ((takeTopicsLoop questions count ts pool).map (·.id)).Nodup ∧
      (∀ q ∈ takeTopicsLoop questions count ts pool, q ∈ questions) := by
  intro ts
  induction ts with
  | nil =>
      intro pool _ hpnd hpsub _
      simp only [takeTopicsLoop]
      exact ⟨hpnd, hpsub⟩
  | cons t rest ih =>
      intro pool htnd hpnd hpsub hdisj
      simp only [List.map_cons, List.nodup_cons] at htnd
      simp only [takeTopicsLoop]
      by_cases hc : count ≤ pool.length
      · rw [if_pos hc]
        exact ⟨hpnd, hpsub⟩
      · rw [if_neg hc]
        apply ih
        · exact htnd.2
        · rw [List.map_append, List.nodup_append]
          refine ⟨hpnd, List.Nodup.sublist ((List.filter_sublist _).map _) hnodup, ?_⟩
          intro x hx hx2
          rcases List.mem_map.mp hx with ⟨q, hq, rfl⟩
          rcases List.mem_map.mp hx2 with ⟨q2, hq2, hq2id⟩
          rw [List.mem_filter] at hq2
          have heq : q2 = q :=
            List.inj_on_of_nodup_map hnodup hq2.1 (hpsub q hq) hq2id
          have htid : q2.topic_id = t.id := by simpa using hq2.2
          exact hdisj q hq t (List.mem_cons_self _ _) (heq ▸ htid)
        · intro q hq
          rcases List.mem_append.mp hq with h | h
          · exact hpsub q h
          · exact (List.mem_filter.mp h).1
        · intro q hq u hu
          rcases List.mem_append.mp hq with h | h
          · exact hdisj q h u (List.mem_cons_of_mem t hu)
          · rw [List.mem_filter] at h
            have hqt : q.topic_id = t.id := by simpa using h.2
            rw [hqt]
            intro he
            exact htnd.1 (he ▸ List.mem_map_of_mem (·.id) hu)

/-- Full behaviour of selectQuestionsSuggestedTopics under distinct topic ids
and topic coverage of the pool: min(count, pool size) results, distinct ids,
drawn from the pool. -/
theorem suggestedTopics_run (r : Nat → ℚ) (questions : List QuizQuestionWithMeta)
    (tfs : List TopicForSelection) (count : Nat)
    (hnodup : (questions.map (·.id)).Nodup)
    (hnodupt : (tfs.map (·.id)).Nodup)
    (hcover : ∀ q ∈ questions, q.topic_id ∈
      (tfs.filter (fun t => decide (0 < t.questionCount))).map (·.id)) :
    (selectQuestionsSuggestedTopics r questions tfs count).length =
      min count questions.length ∧
    ((selectQuestionsSuggestedTopics r questions tfs count).map (·.id)).Nodup ∧
    (∀ q ∈ selectQuestionsSuggestedTopics r questions tfs count, q ∈ questions) := by
  have hsortperm : (sortTopicsForSelection tfs).Perm
      (tfs.filter (fun t => decide (0 < t.questionCount))) :=
    List.perm_insertionSort topicLe _
  have hsortnd : ((sortTopicsForSelection tfs).map (·.id)).Nodup :=
    ((hsortperm.map (·.id)).nodup_iff).mpr
      (List.Nodup.sublist ((List.filter_sublist _).map _) hnodupt)
  have hsortcov : ∀ q ∈ questions, q.topic_id ∈
      (sortTopicsForSelection tfs).map (·.id) := by
    intro q hq
    exact ((hsortperm.map (·.id)).mem_iff).mpr (hcover q hq)
  rw [selectQuestionsSuggestedTopics]
  by_cases hempty : (sortTopicsForSelection tfs).length = 0
  · rw [if_pos hempty]
    have hnil : sortTopicsForSelection tfs = [] := List.length_eq_zero.mp hempty
    have hqnil : questions = [] := by
      apply List.eq_nil_iff_forall_not_mem.mpr
      intro q hq
      have := hsortcov q hq
      rw [hnil] at this
      simp at this
    have hshnil : shuffleArray r questions = [] := by
      rw [hqnil]
      exact (shuffleArray_perm r []).eq_nil
    rw [hshnil, hqnil]
    simp
  · rw [if_neg hempty]
    obtain ⟨hminlen, hle⟩ :=
      takeTopicsLoop_length questions count (sortTopicsForSelection tfs) []
    obtain ⟨hpoolnd, hpoolsub⟩ := takeTopicsLoop_nodup questions count hnodup
      (sortTopicsForSelection tfs) [] hsortnd (by simp) (by simp) (by simp)
    set pool := takeTopicsLoop questions count (sortTopicsForSelection tfs) []
      with hpooldef
    have hsum : ((sortTopicsForSelection tfs).map
        (fun t => (questions.filter (fun q => q.topic_id == t.id)).length)).sum =
        questions.length := by
      rw [(hsortperm.map _).sum_eq]
      apply sum_topic_filters_eq
      · exact List.Nodup.sublist ((List.filter_sublist _).map _) hnodupt
      · exact hcover
    have hperm := shuffleArray_perm r pool
    refine ⟨?_, ?_, ?_⟩
    · rw [List.length_take, hperm.length_eq]
      simp only [List.length_nil] at hminlen
      omega
    · apply List.Nodup.sublist _ ((hperm.map (·.id)).nodup_iff.mpr hpoolnd)
      exact (List.take_sublist _ _).map _
    · intro q hq
      exact hpoolsub q (hperm.mem_iff.mp (List.mem_of_mem_take hq))

-- ===========================================================================
-- Theorems: the selection-layer invariant of selectQuestions (C2)
-- ===========================================================================

theorem queued_map_id (sq : List QuizQuestionWithMeta) :
    ((sq.map (fun q =>
      ({ toQuizQuestionWithMeta := q, appearanceCount := 0, maxAppearances := 3 } :
        QueuedQuestion))).map (·.id)) = sq.map (·.id) := by
  rw [List.map_map]
  rfl

theorem computeTopics_mem (ts : List TopicData) (cs : List ConceptWithDetails)
    (qs : List RawQuizQuestion) (t : TopicData) (ht : t ∈ ts) :
    ∃ u ∈ computeTopicsForSelection ts cs qs, u.id = t.id ∧
      u.questionCount = (qs.filter (fun q => q.topic_id == t.id)).length := by
  rw [computeTopicsForSelection]
  exact ⟨_, List.mem_map_of_mem _ ht, rfl, rfl⟩

/-- C2 counterexample: a pool question whose concept is missing from the
concept list makes targetWeakness mode return an empty queue although one
question was available and one was requested: the queue length is 0, not
min(count, availableCount) = 1. -/
theorem selectQuestions_length_counterexample :
    (selectQuestions zeroOracles exParamsCE).availableCount = 1 ∧
    (selectQuestions zeroOracles exParamsCE).questions.length = 0 ∧
    (selectQuestions zeroOracles exParamsCE).questions.length ≠
      min exParamsCE.numQuestions (selectQuestions zeroOracles exParamsCE).availableCount := by
  refine ⟨?_, ?_, ?_⟩ <;> decide

/-- C2 (amended): for every oracle in range, if the question ids are pairwise
distinct, and (for targetWeakness mode) every question references a concept
of the concept list lying in the question's topic, and (for suggestedTopics
mode) the topic ids are pairwise distinct and every question's topic id
occurs among the topics, then the queue returned by selectQuestions has
length exactly min(count, availableCount) - where availableCount is the
number of questions remaining after the selected-topic filter - and contains
no two entries with the same question id. -/
theorem selectQuestions_length_nodup (o : Oracle) (params : SelectQuestionsParams)
    (ho : OracleOk o)
    (hnodupq : (params.questions.map (·.id)).Nodup)
    (hconcepts : params.mode = QuizMode.targetWeakness →
      ∀ q ∈ params.questions, ∃ c ∈ params.concepts,
        c.id = q.concept_id ∧ c.topic_id = q.topic_id)
    (htopics : params.mode = QuizMode.suggestedTopics →
      (params.topics.map (·.id)).Nodup ∧
      ∀ q ∈ params.questions, q.topic_id ∈ params.topics.map (·.id)) :
    (selectQuestions o params).questions.length =
      min params.numQuestions (selectQuestions o params).availableCount ∧
    ((selectQuestions o params).questions.map (·.id)).Nodup := by
  obtain ⟨qs, cs, ts, ss, sel, mode, num⟩ := params
  simp only at hnodupq hconcepts htopics
  -- shared facts about the filtered pool and its enrichment
  have hfq_sub : (if 0 < sel.length then
      qs.filter (fun q => sel.contains q.topic_id) else qs).Sublist qs := by
    by_cases h : 0 < sel.length
    · rw [if_pos h]; exact List.filter_sublist qs
    · rw [if_neg h]
  set fq := if 0 < sel.length then
    qs.filter (fun q => sel.contains q.topic_id) else qs with hfqdef
  have hfqmem : ∀ q ∈ fq, q ∈ qs := fun q hq => hfq_sub.mem hq
  have hfqnd : (fq.map (·.id)).Nodup :=
    List.Nodup.sublist (hfq_sub.map _) hnodupq
  have hend : ((enrichQuestions fq cs ts ss).map (·.id)).Nodup := by
    rw [enrich_map_id]; exact hfqnd
  have helen : (enrichQuestions fq cs ts ss).length = fq.length := enrich_length fq cs ts ss
  cases mode with
  | normal =>
      simp only [selectQuestions, queued_map_id, List.length_map,
        selectQuestionsNormal]
      rw [← hfqdef]
      have hperm := shuffleArray_perm o.rShuffle (enrichQuestions fq cs ts ss)
      constructor
      · rw [List.length_take, hperm.length_eq]
      · apply List.Nodup.sublist _ ((hperm.map (·.id)).nodup_iff.mpr hend)
        exact (List.take_sublist _ _).map _
  | targetWeakness =>
      simp only [selectQuestions, queued_map_id, List.length_map]
      rw [← hfqdef]
      set fc := if 0 < sel.length then
        cs.filter (fun c => sel.contains c.topic_id) else cs with hfcdef
      obtain ⟨hmem, hnd, hnilcase, hlen, _⟩ :=
        targetWeakness_run o.rConcept o.rQuestion o.rFill o.rFinal
          (enrichQuestions fq cs ts ss) fc num hend ho.2.2.1 _ rfl
      refine ⟨?_, hnd⟩
      by_cases hcwq : fc.filter (fun c =>
          (enrichQuestions fq cs ts ss).any (fun q => q.concept_id == c.id)) = []
      · -- then the enriched pool itself is empty
        have henil : enrichQuestions fq cs ts ss = [] := by
          by_contra hne
          obtain ⟨e, he⟩ := List.exists_mem_of_ne_nil _ hne
          rw [enrichQuestions, List.mem_map] at he
          obtain ⟨rawq, hraw, hedef⟩ := he
          obtain ⟨c, hcmem, hcid, hctopic⟩ := hconcepts rfl rawq (hfqmem rawq hraw)
          have hcfc : c ∈ fc := by
            rw [hfcdef]
            by_cases h : 0 < sel.length
            · rw [if_pos h]
              rw [List.mem_filter]
              refine ⟨hcmem, ?_⟩
              have hq2 : rawq ∈ qs.filter (fun q => sel.contains q.topic_id) := by
                rw [hfqdef, if_pos h] at hraw
                exact hraw
              rw [List.mem_filter] at hq2
              rw [hctopic]
              exact hq2.2
            · rw [if_neg h]
              exact hcmem
          have hany : (enrichQuestions fq cs ts ss).any
              (fun q => q.concept_id == c.id) = true := by
            rw [List.any_eq_true]
            refine ⟨e, ?_, ?_⟩
            · rw [enrichQuestions, List.mem_map]
              exact ⟨rawq, hraw, hedef⟩
            · rw [← hedef]
              simp [hcid]
          have : c ∈ fc.filter (fun c =>
              (enrichQuestions fq cs ts ss).any (fun q => q.concept_id == c.id)) := by
            rw [List.mem_filter]
            exact ⟨hcfc, hany⟩
          rw [hcwq] at this
          simp at this
        rw [hnilcase hcwq, henil]
        simp
      · rw [hlen hcwq, helen]
  | suggestedTopics =>
      simp only [selectQuestions, queued_map_id, List.length_map]
      rw [← hfqdef]
      obtain ⟨hndt, hcov⟩ := htopics rfl
      set fc := if 0 < sel.length then
        cs.filter (fun c => sel.contains c.topic_id) else cs with hfcdef
      set fts := ts.filter (fun t =>
        decide (sel.length = 0) || sel.contains t.id) with hftsdef
      have hndfts : ((computeTopicsForSelection fts fc fq).map (·.id)).Nodup := by
        rw [computeTopics_map_id]
        rw [hftsdef]
        exact List.Nodup.sublist ((List.filter_sublist _).map _) hndt
      have hcovenr : ∀ e ∈ enrichQuestions fq cs ts ss, e.topic_id ∈
          ((computeTopicsForSelection fts fc fq).filter
            (fun t => decide (0 < t.questionCount))).map (·.id) := by
        intro e he
        rw [enrichQuestions, List.mem_map] at he
        obtain ⟨rawq, hraw, hedef⟩ := he
        have hetopic : e.topic_id = rawq.topic_id := by rw [← hedef]
        obtain ⟨t, htmem, htid⟩ := List.mem_map.mp (hcov rawq (hfqmem rawq hraw))
        have htfts : t ∈ fts := by
          rw [hftsdef, List.mem_filter]
          refine ⟨htmem, ?_⟩
          by_cases h : 0 < sel.length
          · have hq2 : rawq ∈ qs.filter (fun q => sel.contains q.topic_id) := by
              rw [hfqdef, if_pos h] at hraw
              exact hraw
            rw [List.mem_filter] at hq2
            rw [htid]
            have hmem : rawq.topic_id ∈ sel := by simpa using hq2.2
            simp [hmem]
          · have hsel0 : sel.length = 0 := by omega
            simp [hsel0]
        -- the summary of t lies in the qc>0 filter and carries id t.id
        obtain ⟨u, humem, huid, huqc⟩ := computeTopics_mem fts fc fq t htfts
        have hu : u ∈ (computeTopicsForSelection fts fc fq).filter
            (fun t => decide (0 < t.questionCount)) := by
          rw [List.mem_filter]
          refine ⟨humem, ?_⟩
          have hqin : rawq ∈ fq.filter (fun q => q.topic_id == t.id) := by
            rw [List.mem_filter]
            exact ⟨hraw, by simp [htid]⟩
          have hpos : 0 < (fq.filter (fun q => q.topic_id == t.id)).length :=
            List.length_pos.mpr (List.ne_nil_of_mem hqin)
          have hqcpos : 0 < u.questionCount := by rw [huqc]; exact hpos
          simpa using hqcpos
        rw [hetopic, ← htid, ← huid]
        exact List.mem_map_of_mem (·.id) hu
      obtain ⟨hslen, hsnd, _⟩ := suggestedTopics_run o.rShuffle
        (enrichQuestions fq cs ts ss) (computeTopicsForSelection fts fc fq) num
        hend hndfts hcovenr
      exact ⟨by rw [hslen, helen], hsnd⟩

/-- Witness for C2 (amended): two distinct-id questions, normal mode,
count 2: the queue holds both, matching min(2, 2), with distinct ids. -/
theorem selectQuestions_length_nodup_witness :
    (selectQuestions zeroOracles exParamsOk).questions.length =
      min exParamsOk.numQuestions (selectQuestions zeroOracles exParamsOk).availableCount ∧
    ((selectQuestions zeroOracles exParamsOk).questions.map (·.id)).Nodup :=
  selectQuestions_length_nodup zeroOracles exParamsOk zeroOracles_ok (by decide)
    (fun h => absurd h (by decide)) (fun h => absurd h (by decide))

end BrainBlitz
